import Mathlib

/-!
# Shell-extension command server (`src/ext-handler.cpp`)

A shallow embedding of the named-pipe command server: the path and status
helpers, the `ReposInfoCache` time-bounded cache, the two command handlers,
the length-prefixed framing (`readRequest` / `sendResponse`) and the
per-connection loop `ExtCommandsHandler::run`.

Conventions of the embedding:

* a `QString` is the list of its characters, a `QByteArray` / `char` buffer is
  a list of byte values;
* `quint64` values are natural numbers, with the wrap-around written out
  (`toU64`, `sub64`);
* the functions of the string library are modelled as the library documents
  them (`split`, `join`, the UTF-8 codec with its skipping of a leading byte
  order mark);
* what the file reaches outside the process (the number parser, the file
  system, the wall clock, the daemon behind `SeafileRpcClient`) is a field of
  `Env`;
* effects are explicit: `World` carries the cache fields, the daemon state, the
  number of clock readings, the trace of daemon calls and the emitted
  `generateShareLink` signals; `Pipe` carries the two directions of the
  channel.
-/

namespace ExtHandler

/-! ## Data model -/

/-- A `QString`, as the sequence of its characters. -/
abbrev QString := List Char

/-- A `QStringList`. -/
abbrev QStringList := List QString

/-- A `QByteArray` or raw `char` buffer, as the sequence of its byte values. -/
abbrev QByteArray := List Nat

/-- Modelled from the spec: the sync-state enum of `LocalRepo` (declared in a
header that is not among the sources), "sync-state enum {Idle, Syncing,
Error}"; the source names the last two `SYNC_STATE_ING` and
`SYNC_STATE_ERROR`. -/
inductive SyncState where
  | SYNC_STATE_IDLE
  | SYNC_STATE_ING
  | SYNC_STATE_ERROR
deriving DecidableEq, Repr

/-- Modelled from the spec: the fields of `LocalRepo` that `ext-handler.cpp`
reads (the class is declared in a header that is not among the sources). -/
structure LocalRepo where
  id : QString
  name : QString
  worktree : QString
  auto_sync : Bool
  sync_state : SyncState
deriving DecidableEq, Repr

/-- The arguments of one `generateShareLink(repo_id, path_in_repo, is_file)`
signal. -/
structure ShareLinkEvent where
  repo_id : QString
  path_in_repo : QString
  is_file : Bool
deriving DecidableEq, Repr

/-- One call made through `rpc_` (the StatusProvider of the spec). -/
inductive RpcCall where
  | listLocalRepos
  | getSyncStatus (repo : LocalRepo)
deriving DecidableEq, Repr

/-- Everything `ext-handler.cpp` calls that lives outside it. `D` is the state
of the daemon behind `SeafileRpcClient`. -/
structure Env (D : Type) where
  /-- Qt function `QString::toULongLong(&ok)`: `none` when `ok` is set to
  false. -/
  toULongLong : QString → Option Nat
  /-- File-system test `QFileInfo(path).isFile()`. -/
  isFile : QString → Bool
  /-- The value of the `n`-th reading of `QDateTime::currentMSecsSinceEpoch()`
  (a `qint64`). -/
  clock : Nat → Int
  /-- Daemon call `SeafileRpcClient::listLocalRepos`: the repos it stores in
  its argument. -/
  rpcListLocalRepos : D → List LocalRepo × D
  /-- Daemon call `SeafileRpcClient::getSyncStatus`: the repo as updated in
  place. -/
  rpcGetSyncStatus : D → LocalRepo → LocalRepo × D
  /-- The default argument of `listLocalRepos(quint64 ts)` declared in
  `ext-handler.h`. -/
  default_ts : Nat

/-- The state the handlers act on: the two fields of `ReposInfoCache`, the
daemon, and the record of what has been observed so far. -/
structure World (D : Type) where
  cache_ts_ : Nat
  cached_info_ : List LocalRepo
  daemon : D
  /-- Number of readings of the wall clock made so far. -/
  clock_reads : Nat
  /-- Calls made through `rpc_`, oldest first. -/
  rpc_calls : List RpcCall
  /-- Signals `generateShareLink` emitted, oldest first. -/
  share_links : List ShareLinkEvent

/-- The named pipe of one connection. `extPipeReadN` consumes `inbound`;
`extPipeWriteN` appends to `outbound` as long as the client still accepts
bytes (`wcap` is the number of bytes it will still take). -/
structure Pipe where
  inbound : List Nat
  outbound : List Nat
  wcap : Nat
deriving DecidableEq, Repr

/-! ## Constants and machine arithmetic -/

/-- Constant `const quint64 kReposInfoCacheMSecs = 2000;`. -/
def kReposInfoCacheMSecs : Nat := 2000

/-- Conversion of a `qint64` to `quint64`. -/
def toU64 (x : Int) : Nat := (x % 2 ^ 64).toNat

/-- Subtraction of two `quint64` values. -/
def sub64 (a b : Nat) : Nat := (a + (2 ^ 64 - b % 2 ^ 64)) % 2 ^ 64

/-- Conversion of a length to `uint32_t`. -/
def toU32 (n : Nat) : Nat := n % 2 ^ 32

/-! ## String-library functions used by the file -/

/-- Qt function `QDir::fromNativeSeparators` on Windows, as the source documents it above
`normalizedPath`: replace "\" with "/". -/
def fromNativeSeparators (path : QString) : QString :=
  path.map (fun c => if c = '\\' then '/' else c)

/-- Qt function `QString::endsWith`. -/
def endsWith (s t : QString) : Bool := t.isSuffixOf s

/-- Qt function `QString::startsWith`. -/
def startsWith (s t : QString) : Bool := t.isPrefixOf s

/-- Qt function `QString::left(n)`. -/
def left (s : QString) (n : Nat) : QString := s.take n

/-- Qt function `QString::mid(pos)`. -/
def mid (s : QString) (pos : Nat) : QString := s.drop pos

/-- Qt function `QString::at(i)`, for `i` within the string. -/
def charAt (s : QString) (i : Nat) : Char := s.getD i (Char.ofNat 0)

/-- Qt function `QStringList::join(sep)`. -/
def join (sep : QString) : QStringList → QString
  | [] => []
  | [a] => a
  | a :: b :: rest => a ++ sep ++ join sep (b :: rest)

/-- The scan of `QString::split(sep, QString::SkipEmptyParts)`: `cur` holds
the characters read since the last separator, newest first; a field is
appended when a separator or the end is reached and the field is not empty. -/
def splitLoop (sep : Char) : QString → QString → QStringList
  | [], cur => if cur.isEmpty then [] else [cur.reverse]
  | c :: cs, cur =>
    if c = sep then
      if cur.isEmpty then splitLoop sep cs [] else cur.reverse :: splitLoop sep cs []
    else splitLoop sep cs (c :: cur)

/-- Qt function `QString::split(sep, QString::SkipEmptyParts)`. -/
def split (s : QString) (sep : Char) : QStringList := splitLoop sep s []

/-! ## The UTF-8 codec of the string library -/

/-- The UTF-8 bytes of one character. -/
def utf8EncodeChar (c : Char) : List Nat :=
  let v := c.toNat
  if v < 128 then [v]
  else if v < 2048 then [192 + v / 64, 128 + v % 64]
  else if v < 65536 then [224 + v / 4096, 128 + v / 64 % 64, 128 + v % 64]
  else [240 + v / 262144, 128 + v / 4096 % 64, 128 + v / 64 % 64, 128 + v % 64]

/-- Standard UTF-8 encoding. -/
def utf8Encode (s : QString) : QByteArray := s.flatMap utf8EncodeChar

/-- Qt function `QString::toUtf8`: the UTF-8 encoding of the text, without a
byte order mark. -/
def toUtf8 (s : QString) : QByteArray := utf8Encode s

/-- Whether `b` is a continuation byte. -/
def isCont (b : Nat) : Bool := decide (128 ≤ b) && decide (b < 192)

/-- Whether `v` is a code that the form with bounds `lo` and `hi` encodes:
within the bounds (not overlong, not beyond U+10FFFF) and not a surrogate. -/
def validCode (lo hi v : Nat) : Bool :=
  decide (lo ≤ v) && decide (v < hi) && !(decide (55296 ≤ v) && decide (v < 57344))

/-- UTF-8 decoding as the string library does it: a byte that starts no
well-formed sequence is consumed alone and decodes to U+FFFD. -/
def utf8Decode : QByteArray → QString
  | [] => []
  | b0 :: rest =>
    let bad := Char.ofNat 65533 :: utf8Decode rest
    if b0 < 128 then Char.ofNat b0 :: utf8Decode rest
    else if b0 < 192 then bad
    else if b0 < 224 then
      match rest with
      | b1 :: r1 =>
        if isCont b1 && validCode 128 2048 ((b0 - 192) * 64 + (b1 - 128)) then
          Char.ofNat ((b0 - 192) * 64 + (b1 - 128)) :: utf8Decode r1
        else bad
      | _ => bad
    else if b0 < 240 then
      match rest with
      | b1 :: b2 :: r2 =>
        if isCont b1 && isCont b2
            && validCode 2048 65536 ((b0 - 224) * 4096 + (b1 - 128) * 64 + (b2 - 128)) then
          Char.ofNat ((b0 - 224) * 4096 + (b1 - 128) * 64 + (b2 - 128)) :: utf8Decode r2
        else bad
      | _ => bad
    else
      match rest with
      | b1 :: b2 :: b3 :: r3 =>
        if isCont b1 && isCont b2 && isCont b3
            && validCode 65536 1114112
              ((b0 - 240) * 262144 + (b1 - 128) * 4096 + (b2 - 128) * 64 + (b3 - 128)) then
          Char.ofNat ((b0 - 240) * 262144 + (b1 - 128) * 4096 + (b2 - 128) * 64 + (b3 - 128))
            :: utf8Decode r3
        else bad
      | _ => bad

/-- The UTF-8 byte order mark, `EF BB BF`. -/
def utf8bom : List Nat := [239, 187, 191]

/-- Qt function `QString::fromUtf8`, applied to a byte sequence of known
extent: a byte order mark at the very start is skipped, the rest is
decoded. -/
def fromUtf8 (bytes : QByteArray) : QString :=
  if utf8bom.isPrefixOf bytes then utf8Decode (bytes.drop 3) else utf8Decode bytes

/-! ## Helpers of the anonymous namespace -/

/-- Function `normalizedPath`: replace "\" with "/", and remove the trailing slash. -/
def normalizedPath (path : QString) : QString :=
  let p := fromNativeSeparators path
  if endsWith p "/".toList then left p (p.length - 1) else p

/-- Function `repoStatus`: the variable `status` starts as "normal" and is
overwritten by the first branch that applies. -/
def repoStatus (repo : LocalRepo) : QString :=
  let status := "normal".toList
  if !repo.auto_sync then "paused".toList
  else if repo.sync_state = SyncState.SYNC_STATE_ING then "syncing".toList
  else if repo.sync_state = SyncState.SYNC_STATE_ERROR then "error".toList
  else status

/-- Function `extPipeReadN`: read exactly `len` bytes; fails when the client has sent
fewer. -/
def extPipeReadN (pipe : Pipe) (len : Nat) : Option (List Nat) × Pipe :=
  if pipe.inbound.length < len then (none, { pipe with inbound := [] })
  else (some (pipe.inbound.take len), { pipe with inbound := pipe.inbound.drop len })

/-- Function `extPipeWriteN`: write exactly `buf`; fails when the client no longer
accepts that many bytes. -/
def extPipeWriteN (pipe : Pipe) (buf : List Nat) : Bool × Pipe :=
  if pipe.wcap < buf.length then (false, { pipe with wcap := 0 })
  else (true, { pipe with outbound := pipe.outbound ++ buf, wcap := pipe.wcap - buf.length })

/-! ## `ReposInfoCache` -/

/-- One reading of `QDateTime::currentMSecsSinceEpoch()`. -/
def currentMSecsSinceEpoch {D : Type} (env : Env D) (w : World D) : Int × World D :=
  (env.clock w.clock_reads, { w with clock_reads := w.clock_reads + 1 })

/-- The call `rpc_->listLocalRepos(&repos)`. -/
def rpcListLocalRepos {D : Type} (env : Env D) (w : World D) : List LocalRepo × World D :=
  let r := env.rpcListLocalRepos w.daemon
  (r.1, { w with daemon := r.2, rpc_calls := w.rpc_calls ++ [RpcCall.listLocalRepos] })

/-- The call `rpc_->getSyncStatus(repo)`. -/
def rpcGetSyncStatus {D : Type} (env : Env D) (repo : LocalRepo) (w : World D) :
    LocalRepo × World D :=
  let r := env.rpcGetSyncStatus w.daemon repo
  (r.1, { w with daemon := r.2, rpc_calls := w.rpc_calls ++ [RpcCall.getSyncStatus repo] })

/-- The loop `for (size_t i = 0; i < repos.size(); i++) rpc_->getSyncStatus(repos[i]);`. -/
def syncLoop {D : Type} (env : Env D) : List LocalRepo → World D → List LocalRepo × World D
  | [], w => ([], w)
  | repo :: rest, w =>
    let r := rpcGetSyncStatus env repo w
    let rs := syncLoop env rest r.2
    (r.1 :: rs.1, rs.2)

/-- The test of `getReposInfo` that decides between the held snapshot and a
fresh fetch. -/
def cacheFresh (cache_ts ts now : Nat) : Bool :=
  cache_ts != 0 && decide (cache_ts > ts) && decide (sub64 now cache_ts < kReposInfoCacheMSecs)

/-- Method `ReposInfoCache::getReposInfo(ts)`; the mutex makes each call one
atomic step on the world. -/
def getReposInfo {D : Type} (env : Env D) (ts : Nat) (w : World D) :
    List LocalRepo × World D :=
  let t := currentMSecsSinceEpoch env w
  let now := toU64 t.1
  if cacheFresh t.2.cache_ts_ ts now then
    (t.2.cached_info_, t.2)
  else
    let l := rpcListLocalRepos env t.2
    let s := syncLoop env l.1 l.2
    let t2 := currentMSecsSinceEpoch env s.2
    let w2 := { t2.2 with cached_info_ := s.1, cache_ts_ := toU64 t2.1 }
    (w2.cached_info_, w2)

/-! ## `ExtCommandsHandler` -/

/-- Method `ExtCommandsHandler::listLocalRepos(ts)`. -/
def listLocalRepos {D : Type} (env : Env D) (ts : Nat) (w : World D) :
    List LocalRepo × World D :=
  getReposInfo env ts w

/-- Statement `emit generateShareLink(repo_id, path_in_repo, is_file)`. -/
def emitGenerateShareLink {D : Type} (w : World D) (e : ShareLinkEvent) : World D :=
  { w with share_links := w.share_links ++ [e] }

/-- The `foreach` loop of `handleGenShareLink`, left by `break` at the first
repo that passes the test. -/
def genShareLinkLoop {D : Type} (env : Env D) (path : QString) :
    List LocalRepo → World D → World D
  | [], w => w
  | repo :: rest, w =>
    let wt := normalizedPath repo.worktree
    if decide (path.length > wt.length) && startsWith path wt
        && (charAt path wt.length == '/') then
      let path_in_repo := mid path wt.length
      let is_file := env.isFile path
      emitGenerateShareLink w ⟨repo.id, path_in_repo, is_file⟩
    else genShareLinkLoop env path rest w

/-- Method `ExtCommandsHandler::handleGenShareLink`. -/
def handleGenShareLink {D : Type} (env : Env D) (args : QStringList) (w : World D) : World D :=
  if args.length ≠ 1 then w
  else
    let path := normalizedPath (args.getD 0 [])
    let r := listLocalRepos env env.default_ts w
    genShareLinkLoop env path r.1 r.2

/-- The body of the `foreach` loop of `handleListRepos`: one record appended
to `infos`. -/
def listReposStep (infos : QStringList) (repo : LocalRepo) : QStringList :=
  let fields : QStringList := [repo.id, repo.name, normalizedPath repo.worktree, repoStatus repo]
  infos ++ [join "\t".toList fields]

/-- Method `ExtCommandsHandler::handleListRepos`. -/
def handleListRepos {D : Type} (env : Env D) (args : QStringList) (w : World D) :
    QString × World D :=
  if args.length ≠ 1 then ([], w)
  else
    match env.toULongLong (args.getD 0 []) with
    | none => ([], w)
    | some ts =>
      let r := listLocalRepos env ts w
      let infos := r.1.foldl listReposStep []
      (join "\n".toList infos, r.2)

/-- The four bytes of a `uint32_t` in memory (the pipe is local, so both ends
use the byte order of the machine: little-endian on Windows). -/
def u32Bytes (n : Nat) : List Nat :=
  [n % 256, n / 256 % 256, n / 65536 % 256, n / 16777216 % 256]

/-- The `uint32_t` stored in four bytes of memory. -/
def u32OfBytes : List Nat → Nat
  | [b0, b1, b2, b3] => toU32 (b0 + 256 * b1 + 65536 * b2 + 16777216 * b3)
  | _ => 0

/-- The bytes a `const char *` argument denotes: those before the first NUL. -/
def cString (buf : List Nat) : List Nat := buf.takeWhile (fun b => b != 0)

/-- The ways a call of `readRequest` ends. -/
inductive ReadResult where
  /-- The call returned false; the pipe is left as given. -/
  | failed (pipe : Pipe)
  /-- The call returned true with `*args` set. -/
  | ok (args : QStringList) (pipe : Pipe)
  /-- The store `buf.data()[len] = 0` fell outside the buffer of
  `len + 1` bytes, the sum taken in `uint32_t`: undefined behaviour. -/
  | outOfBounds
deriving DecidableEq, Repr

/-- Method `ExtCommandsHandler::readRequest`. The buffer has `len + 1` bytes,
the sum computed in `uint32_t`; for `len = 2^32 - 1` it has none, and the
store of the terminating NUL at index `len` is out of bounds. -/
def readRequest (pipe : Pipe) : ReadResult :=
  match extPipeReadN pipe 4 with
  | (none, p1) => ReadResult.failed p1
  | (some hdr, p1) =>
    let len := u32OfBytes hdr
    if len = 0 then ReadResult.failed p1
    else if toU32 (len + 1) ≤ len then ReadResult.outOfBounds
    else
      match extPipeReadN p1 len with
      | (none, p2) => ReadResult.failed p2
      | (some data, p2) =>
        let buf := data ++ [0]
        let list := split (fromUtf8 (cString buf)) '\t'
        if list.isEmpty then ReadResult.failed p2 else ReadResult.ok list p2

/-- Method `ExtCommandsHandler::sendResponse`. -/
def sendResponse (resp : QString) (pipe : Pipe) : Bool × Pipe :=
  let raw_resp := toUtf8 resp
  let len := toU32 raw_resp.length
  match extPipeWriteN pipe (u32Bytes len) with
  | (false, p1) => (false, p1)
  | (true, p1) =>
    if len > 0 then extPipeWriteN p1 (raw_resp.take len)
    else (true, p1)

/-- The command dispatch in the body of the loop of `run`: the response and
the world after the handler. -/
def dispatch {D : Type} (env : Env D) (cmd : QString) (args : QStringList) (w : World D) :
    QString × World D :=
  let resp : QString := []
  if cmd = "list-repos".toList then handleListRepos env args w
  else if cmd = "get-share-link".toList then (resp, handleGenShareLink env args w)
  else (resp, w)

/-- The ways the loop of `run` ends. -/
inductive RunResult (D : Type) where
  /-- The loop was left by `break`; the pipe, as it is then, is disconnected
  and closed. -/
  | closed (pipe : Pipe) (w : World D)
  /-- The call of `readRequest` stored outside its buffer. -/
  | outOfBounds

/-- The loop of `ExtCommandsHandler::run`, at most `fuel` rounds of it;
`none` means the rounds ran out first. `readRequest` never succeeds with an
empty list, so `args.takeAt(0)` always has a command to take; the case of the
empty list below is there for the match to be complete. -/
def runLoop {D : Type} (env : Env D) : Nat → Pipe → World D → Option (RunResult D)
  | 0, _, _ => none
  | fuel + 1, pipe, w =>
    match readRequest pipe with
    | ReadResult.outOfBounds => some RunResult.outOfBounds
    | ReadResult.failed p1 => some (RunResult.closed p1 w)
    | ReadResult.ok [] p1 => some (RunResult.closed p1 w)
    | ReadResult.ok (cmd :: args) p1 =>
      let r := dispatch env cmd args w
      match sendResponse r.1 p1 with
      | (false, p2) => some (RunResult.closed p2 r.2)
      | (true, p2) => runLoop env fuel p2 r.2

/-- Method `ExtCommandsHandler::run`: every round that does not leave the loop
consumes at least five bytes of the input, so one round more than the input
has bytes is enough (`run_terminates`). -/
def run {D : Type} (env : Env D) (pipe : Pipe) (w : World D) : Option (RunResult D) :=
  runLoop env (pipe.inbound.length + 1) pipe w

/-! ## Concrete environments

Used to evaluate the handlers on concrete inputs: a plain decimal parser and
daemons that answer from a fixed list. -/

/-- The value of a string of decimal digits, `none` when a character is not a
digit. -/
def digitsValue : Nat → QString → Option Nat
  | acc, [] => some acc
  | acc, c :: cs =>
    if '0' ≤ c ∧ c ≤ '9' then digitsValue (acc * 10 + (c.toNat - 48)) cs else none

/-- A decimal parser for `quint64`: a non-empty string of digits whose value
fits 64 bits. -/
def parseU64 (s : QString) : Option Nat :=
  if s.isEmpty then none
  else
    match digitsValue 0 s with
    | some v => if v < 2 ^ 64 then some v else none
    | none => none

/-- A concrete environment: the daemon state is the number of calls it has
answered, it lists `repos` every time and reports every repo as it is;
the `n`-th clock reading is `clock n`. -/
def stdEnv (repos : List LocalRepo) (clock : Nat → Int) : Env Nat where
  toULongLong := parseU64
  isFile := fun _ => true
  clock := clock
  rpcListLocalRepos := fun d => (repos, d + 1)
  rpcGetSyncStatus := fun d repo => (repo, d + 1)
  default_ts := 0

/-- A concrete environment whose daemon changes what it is asked about: it
lists `repos` every time, and `getSyncStatus` sets the sync-state of the repo
to Syncing when the daemon has answered an odd number of calls before, to
Error otherwise. -/
def busyEnv (repos : List LocalRepo) (clock : Nat → Int) : Env Nat where
  toULongLong := parseU64
  isFile := fun _ => true
  clock := clock
  rpcListLocalRepos := fun d => (repos, d + 1)
  rpcGetSyncStatus := fun d repo =>
    ({ repo with sync_state :=
        if d % 2 = 1 then SyncState.SYNC_STATE_ING else SyncState.SYNC_STATE_ERROR }, d + 1)
  default_ts := 0

/-- The state after the constructor of `ReposInfoCache` (`cache_ts_ = 0`),
before any clock reading, call or signal. -/
def initWorld {D : Type} (d : D) : World D where
  cache_ts_ := 0
  cached_info_ := []
  daemon := d
  clock_reads := 0
  rpc_calls := []
  share_links := []

/-! ## The statements of the specification

Definitions that follow the words of the specification; the theorems below
compare them with the functions above. -/

/-- The matching rule of `get-share-link` in the words of the spec: the
normalized worktree `w` of `repo` is a strict prefix of the normalized path
`p`, and the character of `p` right after it is a slash. -/
def wtMatches (p : QString) (repo : LocalRepo) : Prop :=
  normalizedPath repo.worktree <+: p ∧ normalizedPath repo.worktree ≠ p ∧
    p.get? (normalizedPath repo.worktree).length = some '/'

instance (p : QString) (repo : LocalRepo) : Decidable (wtMatches p repo) := by
  unfold wtMatches; exact inferInstance

/-- The record of one repo in the `list-repos` response, in the words of the
spec: id, name, normalized worktree and status string joined by tab. -/
def repoRecord (repo : LocalRepo) : QString :=
  List.intercalate ['\t'] [repo.id, repo.name, normalizedPath repo.worktree, repoStatus repo]

/-- The fields of a request text in the words of the spec: the text split on
the tab character, empty fields dropped. -/
def requestFields (t : QString) : QStringList :=
  (t.splitOn '\t').filter (fun f => !f.isEmpty)

/-- The frame that `sendResponse` writes for the text `t` on a pipe that
accepts it whole. -/
def frameOf (t : QString) : List Nat :=
  (sendResponse t ⟨[], [], 4 + (toUtf8 t).length⟩).2.outbound

/-- The pipe after a request has been read from `pipe`, leaving the input of
`p1`, and the zero-length response frame, the length prefix alone, has been
written. -/
def afterEmptyResponse (pipe p1 : Pipe) : Pipe :=
  { inbound := p1.inbound, outbound := pipe.outbound ++ [0, 0, 0, 0], wcap := pipe.wcap - 4 }

/-- The state of the daemon after it has answered `getSyncStatus` for the
repos of `l`, in order, starting in state `d`. -/
def daemonAfter {D : Type} (env : Env D) (d : D) (l : List LocalRepo) : D :=
  l.foldl (fun d r => (env.rpcGetSyncStatus d r).2) d

/-- The hit condition of the cache as the spec states it, for the held
timestamp `cache_ts`, the client timestamp `ts` and the clock reading `now`. -/
def cacheHit (cache_ts ts now : Nat) : Prop :=
  cache_ts ≠ 0 ∧ cache_ts > ts ∧ sub64 now cache_ts < 2000

instance (cache_ts ts now : Nat) : Decidable (cacheHit cache_ts ts now) := by
  unfold cacheHit; exact inferInstance

/-- The value of `cache_ts_` after each call of a sequence of `getReposInfo`
calls with the client timestamps `tss`. -/
def cacheTsTrace {D : Type} (env : Env D) : List Nat → World D → List Nat
  | [], _ => []
  | ts :: rest, w =>
    (getReposInfo env ts w).2.cache_ts_ :: cacheTsTrace env rest (getReposInfo env ts w).2

/-- A wall clock that never goes back and whose readings are times since the
epoch within the range of `qint64`. -/
def ClockSteady {D : Type} (env : Env D) : Prop :=
  (∀ i j, i ≤ j → env.clock i ≤ env.clock j) ∧ ∀ i, 0 ≤ env.clock i ∧ env.clock i < 2 ^ 63

/-! ## Example data -/

/-- A repo with worktree `/home/u/RepoA`. -/
def repoA : LocalRepo :=
  ⟨"idA".toList, "RepoA".toList, "/home/u/RepoA".toList, true, SyncState.SYNC_STATE_IDLE⟩

/-- A repo whose worktree `/home/u` contains that of `repoA`. -/
def repoHome : LocalRepo :=
  ⟨"idH".toList, "Home".toList, "/home/u/".toList, false, SyncState.SYNC_STATE_ERROR⟩

/-- A clock that starts at 1000 and advances 500 ms between readings, for its
first hundred readings. -/
def exClock (n : Nat) : Int := 1000 + 500 * min n 100

/-- A clock that is set back 100 ms between readings, starting at 1000. -/
def backClock (n : Nat) : Int := 1000 - 100 * n

/-! ## Theorems -/

/-! ### The string helpers -/

theorem join_eq_intercalate (sep : QString) (l : QStringList) :
    join sep l = List.intercalate sep l := by
  induction l with
  | nil => rfl
  | cons a t ih =>
    cases t with
    | nil => simp [join, List.intercalate]
    | cons b r =>
      rw [join, ih]
      simp [List.intercalate, List.intersperse]

theorem foldl_listReposStep (l : List LocalRepo) (acc : QStringList) :
    l.foldl listReposStep acc = acc ++ l.map repoRecord := by
  induction l generalizing acc with
  | nil => simp
  | cons a t ih =>
    simp only [List.foldl_cons, ih, List.map_cons]
    simp [listReposStep, repoRecord, join_eq_intercalate]

theorem shareLinkTest_iff (p wt : QString) :
    (decide (p.length > wt.length) && startsWith p wt && (charAt p wt.length == '/')) = true ↔
      (wt <+: p ∧ wt ≠ p ∧ p.get? wt.length = some '/') := by
  simp only [startsWith, charAt, Bool.and_eq_true, decide_eq_true_eq, beq_iff_eq,
    List.isPrefixOf_iff_prefix]
  constructor
  · rintro ⟨⟨hlen, hpre⟩, hc⟩
    refine ⟨hpre, ?_, ?_⟩
    · intro h; rw [h] at hlen; exact absurd hlen (lt_irrefl _)
    · rw [List.getD_eq_getElem?_getD] at hc
      rw [List.get?_eq_getElem?, List.getElem?_eq_getElem hlen] at *
      simpa using hc
  · rintro ⟨hpre, hne, hc⟩
    have hlen : wt.length < p.length := by
      rw [List.get?_eq_getElem?] at hc
      by_contra hcon
      rw [List.getElem?_eq_none (not_lt.mp hcon)] at hc
      cases hc
    refine ⟨⟨hlen, hpre⟩, ?_⟩
    rw [List.getD_eq_getElem?_getD]
    rw [List.get?_eq_getElem?] at hc
    simp [hc]

theorem genShareLinkLoop_eq {D : Type} (env : Env D) (p : QString) (snap : List LocalRepo)
    (w : World D) :
    genShareLinkLoop env p snap w =
      { w with share_links := w.share_links ++
          ((snap.find? (fun r => decide (wtMatches p r))).map (fun r =>
            (⟨r.id, p.drop (normalizedPath r.worktree).length, env.isFile p⟩ :
              ShareLinkEvent))).toList } := by
  induction snap with
  | nil => simp [genShareLinkLoop]
  | cons r rest ih =>
    rw [genShareLinkLoop]
    by_cases h : wtMatches p r
    · have h2 := (shareLinkTest_iff p (normalizedPath r.worktree)).mpr h
      simp only [h2, if_true, List.find?_cons, h, decide_True]
      simp [emitGenerateShareLink, mid]
    · have h2 : ¬ _ := fun hh => h ((shareLinkTest_iff p (normalizedPath r.worktree)).mp hh)
      simp only [h2, List.find?_cons, h, decide_False]
      simpa using ih

/-! ### The cache -/

theorem cacheFresh_iff (cache_ts ts now : Nat) :
    cacheFresh cache_ts ts now = true ↔ cacheHit cache_ts ts now := by
  simp [cacheFresh, cacheHit, kReposInfoCacheMSecs, and_assoc]

theorem syncLoop_world {D : Type} (env : Env D) (l : List LocalRepo) (w : World D) :
    (syncLoop env l w).2.rpc_calls = w.rpc_calls ++ l.map RpcCall.getSyncStatus ∧
      (syncLoop env l w).1.length = l.length ∧
      (syncLoop env l w).2.cache_ts_ = w.cache_ts_ ∧
      (syncLoop env l w).2.cached_info_ = w.cached_info_ ∧
      (syncLoop env l w).2.clock_reads = w.clock_reads ∧
      (syncLoop env l w).2.share_links = w.share_links := by
  induction l generalizing w with
  | nil => simp [syncLoop]
  | cons r rest ih =>
    have h := ih (rpcGetSyncStatus env r w).2
    simp only [syncLoop, List.map_cons, List.length_cons]
    refine ⟨?_, ?_, ?_, ?_, ?_, ?_⟩
    · rw [h.1]; simp [rpcGetSyncStatus]
    · rw [h.2.1]
    · rw [h.2.2.1]; rfl
    · rw [h.2.2.2.1]; rfl
    · rw [h.2.2.2.2.1]; rfl
    · rw [h.2.2.2.2.2]; rfl

theorem getReposInfo_hit {D : Type} (env : Env D) (ts : Nat) (w : World D)
    (h : cacheHit w.cache_ts_ ts (toU64 (env.clock w.clock_reads))) :
    getReposInfo env ts w = (w.cached_info_, { w with clock_reads := w.clock_reads + 1 }) := by
  have h2 := (cacheFresh_iff _ _ _).mpr h
  simp [getReposInfo, currentMSecsSinceEpoch, h2]

theorem getReposInfo_miss {D : Type} (env : Env D) (ts : Nat) (w : World D)
    (h : ¬ cacheHit w.cache_ts_ ts (toU64 (env.clock w.clock_reads))) :
    (getReposInfo env ts w).2.rpc_calls =
        w.rpc_calls ++ RpcCall.listLocalRepos ::
          (env.rpcListLocalRepos w.daemon).1.map RpcCall.getSyncStatus ∧
      (getReposInfo env ts w).2.cache_ts_ = toU64 (env.clock (w.clock_reads + 1)) ∧
      (getReposInfo env ts w).2.cached_info_ = (getReposInfo env ts w).1 ∧
      (getReposInfo env ts w).1.length = (env.rpcListLocalRepos w.daemon).1.length ∧
      (getReposInfo env ts w).2.clock_reads = w.clock_reads + 2 ∧
      (getReposInfo env ts w).2.share_links = w.share_links := by
  have h2 : cacheFresh w.cache_ts_ ts (toU64 (env.clock w.clock_reads)) = false := by
    rw [← Bool.not_eq_true, cacheFresh_iff]; exact h
  have hs := syncLoop_world env (env.rpcListLocalRepos w.daemon).1
    (rpcListLocalRepos env (currentMSecsSinceEpoch env w).2).2
  simp only [getReposInfo, currentMSecsSinceEpoch, h2, Bool.false_eq_true, if_false]
  simp only [currentMSecsSinceEpoch, rpcListLocalRepos] at hs
  simp only [rpcListLocalRepos]
  refine ⟨?_, ?_, trivial, ?_, ?_, ?_⟩
  · rw [hs.1]; simp
  · rw [hs.2.2.2.2.1]
  · rw [hs.2.1]
  · rw [hs.2.2.2.2.1]
  · rw [hs.2.2.2.2.2]

theorem getReposInfo_share_links {D : Type} (env : Env D) (ts : Nat) (w : World D) :
    (getReposInfo env ts w).2.share_links = w.share_links := by
  by_cases h : cacheHit w.cache_ts_ ts (toU64 (env.clock w.clock_reads))
  · rw [getReposInfo_hit env ts w h]
  · exact (getReposInfo_miss env ts w h).2.2.2.2.2

/-! ### `repoStatus` and `handleListRepos` -/

/-- C6: `repoStatus` returns "paused" whenever auto-sync is disabled, whatever
the sync-state; with auto-sync enabled it returns "syncing" for the state
Syncing, otherwise "error" for the state Error, otherwise "normal". -/
theorem repoStatus_precedence (repo : LocalRepo) :
    (repo.auto_sync = false → repoStatus repo = "paused".toList) ∧
    (repo.auto_sync = true → repo.sync_state = SyncState.SYNC_STATE_ING →
      repoStatus repo = "syncing".toList) ∧
    (repo.auto_sync = true → repo.sync_state ≠ SyncState.SYNC_STATE_ING →
      repo.sync_state = SyncState.SYNC_STATE_ERROR → repoStatus repo = "error".toList) ∧
    (repo.auto_sync = true → repo.sync_state ≠ SyncState.SYNC_STATE_ING →
      repo.sync_state ≠ SyncState.SYNC_STATE_ERROR → repoStatus repo = "normal".toList) := by
  refine ⟨?_, ?_, ?_, ?_⟩
  · intro h; simp [repoStatus, h]
  · intro h1 h2; simp [repoStatus, h1, h2]
  · intro h1 _ h3; simp [repoStatus, h1, h3]
  · intro h1 h2 h3; simp [repoStatus, h1, h2, h3]

/-- Witness of C6: a paused repo in state Error, a paused repo in state
Syncing, and one enabled repo for each of the other three outcomes. -/
theorem repoStatus_precedence_witness :
    repoStatus repoHome = "paused".toList ∧
    repoStatus { repoA with auto_sync := false, sync_state := SyncState.SYNC_STATE_ING }
      = "paused".toList ∧
    repoStatus { repoA with sync_state := SyncState.SYNC_STATE_ING } = "syncing".toList ∧
    repoStatus { repoA with sync_state := SyncState.SYNC_STATE_ERROR } = "error".toList ∧
    repoStatus repoA = "normal".toList :=
  ⟨(repoStatus_precedence repoHome).1 rfl,
   (repoStatus_precedence _).1 rfl,
   (repoStatus_precedence _).2.1 rfl rfl,
   (repoStatus_precedence _).2.2.1 rfl (by decide) rfl,
   (repoStatus_precedence repoA).2.2.2 rfl (by decide) (by decide)⟩

/-- C5: for a timestamp argument that parses, the `list-repos` response is the
records of the repos of the snapshot returned by the cache, in snapshot
order, joined by newline, each record being id, name, normalized worktree and
status joined by tab; an empty snapshot yields the empty string. -/
theorem handleListRepos_response {D : Type} (env : Env D) (arg : QString) (ts : Nat)
    (w : World D) (hts : env.toULongLong arg = some ts) :
    handleListRepos env [arg] w =
        (List.intercalate ['\n'] ((getReposInfo env ts w).1.map repoRecord),
          (getReposInfo env ts w).2) ∧
      ((getReposInfo env ts w).1 = [] → (handleListRepos env [arg] w).1 = []) := by
  have h : handleListRepos env [arg] w =
        (List.intercalate ['\n'] ((getReposInfo env ts w).1.map repoRecord),
          (getReposInfo env ts w).2) := by
    simp [handleListRepos, hts, listLocalRepos, foldl_listReposStep, join_eq_intercalate]
  refine ⟨h, ?_⟩
  intro hnil
  rw [h, hnil]
  rfl

/-- Witness of C5: the response for a snapshot of two repos, and for the empty
snapshot. -/
theorem handleListRepos_response_witness :
    (handleListRepos (stdEnv [repoHome, repoA] exClock) ["0".toList] (initWorld 0)).1
        = "idH\tHome\t/home/u\tpaused\nidA\tRepoA\t/home/u/RepoA\tnormal".toList ∧
      (handleListRepos (stdEnv [] exClock) ["0".toList] (initWorld 0)).1 = [] :=
  ⟨congrArg Prod.fst
      (handleListRepos_response (stdEnv [repoHome, repoA] exClock) "0".toList 0 (initWorld 0)
        rfl).1,
   (handleListRepos_response (stdEnv [] exClock) "0".toList 0 (initWorld 0) rfl).2 rfl⟩

/-! ### `ReposInfoCache::getReposInfo` -/

theorem syncLoop_content {D : Type} (env : Env D) (l : List LocalRepo) (w : World D) :
    (syncLoop env l w).2.daemon = daemonAfter env w.daemon l ∧
      ∀ i r, l.get? i = some r →
        (syncLoop env l w).1.get? i =
          some (env.rpcGetSyncStatus (daemonAfter env w.daemon (l.take i)) r).1 := by
  induction l generalizing w with
  | nil =>
    refine ⟨rfl, ?_⟩
    intro i r h
    simp at h
  | cons a t ih =>
    have h := ih (rpcGetSyncStatus env a w).2
    refine ⟨?_, ?_⟩
    · simp only [syncLoop, daemonAfter, List.foldl_cons]
      exact h.1
    · intro i r hi
      cases i with
      | zero =>
        simp only [List.get?_cons_zero, Option.some.injEq] at hi
        subst hi
        simp [syncLoop, daemonAfter, rpcGetSyncStatus]
      | succ j =>
        simp only [List.get?_cons_succ] at hi
        simp only [syncLoop, List.get?_cons_succ, List.take_succ_cons, daemonAfter,
          List.foldl_cons]
        exact h.2 j r hi

theorem getReposInfo_miss_content {D : Type} (env : Env D) (ts : Nat) (w : World D)
    (h : ¬ cacheHit w.cache_ts_ ts (toU64 (env.clock w.clock_reads))) :
    (getReposInfo env ts w).2.daemon =
        daemonAfter env (env.rpcListLocalRepos w.daemon).2 (env.rpcListLocalRepos w.daemon).1 ∧
      ∀ i r, (env.rpcListLocalRepos w.daemon).1.get? i = some r →
        (getReposInfo env ts w).1.get? i =
          some (env.rpcGetSyncStatus
            (daemonAfter env (env.rpcListLocalRepos w.daemon).2
              ((env.rpcListLocalRepos w.daemon).1.take i)) r).1 := by
  have h2 : cacheFresh w.cache_ts_ ts (toU64 (env.clock w.clock_reads)) = false := by
    rw [← Bool.not_eq_true, cacheFresh_iff]; exact h
  have hs := syncLoop_content env (env.rpcListLocalRepos w.daemon).1
    (rpcListLocalRepos env (currentMSecsSinceEpoch env w).2).2
  simp only [getReposInfo, currentMSecsSinceEpoch, h2, Bool.false_eq_true, if_false]
  simp only [currentMSecsSinceEpoch, rpcListLocalRepos] at hs
  simp only [rpcListLocalRepos]
  exact hs

/-- C1: `getReposInfo(ts)` returns the held snapshot, makes no call through
`rpc_` and leaves `cache_ts_`, `cached_info_` and the daemon as they are if
and only if `cache_ts_ != 0`, `cache_ts_ > ts` and the unsigned 64-bit
difference `now - cache_ts_` is below 2000; in every other case it calls
`listLocalRepos` once, then `getSyncStatus` once per listed repo in order,
each call on the daemon as the calls before left it; the new snapshot has, at
each position, the listed repo as `getSyncStatus` updated it; it is stored
with the time read after the fetch as its timestamp, and returned. -/
theorem getReposInfo_hit_iff {D : Type} (env : Env D) (ts : Nat) (w : World D) :
    (((getReposInfo env ts w).1 = w.cached_info_ ∧
        (getReposInfo env ts w).2.rpc_calls = w.rpc_calls ∧
        (getReposInfo env ts w).2.daemon = w.daemon ∧
        (getReposInfo env ts w).2.cache_ts_ = w.cache_ts_ ∧
        (getReposInfo env ts w).2.cached_info_ = w.cached_info_) ↔
      cacheHit w.cache_ts_ ts (toU64 (env.clock w.clock_reads))) ∧
    (¬ cacheHit w.cache_ts_ ts (toU64 (env.clock w.clock_reads)) →
      (getReposInfo env ts w).2.rpc_calls =
          w.rpc_calls ++ RpcCall.listLocalRepos ::
            (env.rpcListLocalRepos w.daemon).1.map RpcCall.getSyncStatus ∧
        (getReposInfo env ts w).1.length = (env.rpcListLocalRepos w.daemon).1.length ∧
        (∀ i r, (env.rpcListLocalRepos w.daemon).1.get? i = some r →
          (getReposInfo env ts w).1.get? i =
            some (env.rpcGetSyncStatus
              (daemonAfter env (env.rpcListLocalRepos w.daemon).2
                ((env.rpcListLocalRepos w.daemon).1.take i)) r).1) ∧
        (getReposInfo env ts w).2.daemon =
          daemonAfter env (env.rpcListLocalRepos w.daemon).2
            (env.rpcListLocalRepos w.daemon).1 ∧
        (getReposInfo env ts w).2.cached_info_ = (getReposInfo env ts w).1 ∧
        (getReposInfo env ts w).2.cache_ts_ = toU64 (env.clock (w.clock_reads + 1))) := by
  constructor
  · constructor
    · rintro ⟨_, hcalls, _⟩
      by_contra hmiss
      have h := (getReposInfo_miss env ts w hmiss).1
      rw [hcalls] at h
      simpa using congrArg List.length h
    · intro hhit
      rw [getReposInfo_hit env ts w hhit]
      exact ⟨rfl, rfl, rfl, rfl, rfl⟩
  · intro hmiss
    have h := getReposInfo_miss env ts w hmiss
    have hc := getReposInfo_miss_content env ts w hmiss
    exact ⟨h.1, h.2.2.2.1, hc.2, hc.1, h.2.2.1, h.2.1⟩

/-- Witness of C1: a refresh from the freshly constructed cache against a
daemon that reports the first repo as Syncing and the second as in Error, then
a hit on a held snapshot (timestamp 1500, client timestamp 0, clock 2000). -/
theorem getReposInfo_hit_iff_witness :
    (getReposInfo (busyEnv [repoHome, repoA] exClock) 0 (initWorld 0)).2.rpc_calls
        = [RpcCall.listLocalRepos, RpcCall.getSyncStatus repoHome,
            RpcCall.getSyncStatus repoA] ∧
      (getReposInfo (busyEnv [repoHome, repoA] exClock) 0 (initWorld 0)).1.get? 0
        = some { repoHome with sync_state := SyncState.SYNC_STATE_ING } ∧
      (getReposInfo (busyEnv [repoHome, repoA] exClock) 0 (initWorld 0)).1.get? 1
        = some { repoA with sync_state := SyncState.SYNC_STATE_ERROR } ∧
      (getReposInfo (busyEnv [repoHome, repoA] exClock) 0 (initWorld 0)).1.length = 2 ∧
      (getReposInfo (busyEnv [repoHome, repoA] exClock) 0 (initWorld 0)).2.daemon = 3 ∧
      (getReposInfo (busyEnv [repoHome, repoA] exClock) 0 (initWorld 0)).2.cache_ts_ = 1500 ∧
      (getReposInfo (stdEnv [] exClock) 0
          ⟨1500, [repoA], 0, 2, [RpcCall.listLocalRepos], []⟩).1 = [repoA] ∧
      (getReposInfo (stdEnv [] exClock) 0
          ⟨1500, [repoA], 0, 2, [RpcCall.listLocalRepos], []⟩).2.rpc_calls
        = [RpcCall.listLocalRepos] :=
  ⟨((getReposInfo_hit_iff (busyEnv [repoHome, repoA] exClock) 0 (initWorld 0)).2
      (by decide)).1,
   ((getReposInfo_hit_iff (busyEnv [repoHome, repoA] exClock) 0 (initWorld 0)).2
      (by decide)).2.2.1 0 repoHome rfl,
   ((getReposInfo_hit_iff (busyEnv [repoHome, repoA] exClock) 0 (initWorld 0)).2
      (by decide)).2.2.1 1 repoA rfl,
   ((getReposInfo_hit_iff (busyEnv [repoHome, repoA] exClock) 0 (initWorld 0)).2
      (by decide)).2.1,
   ((getReposInfo_hit_iff (busyEnv [repoHome, repoA] exClock) 0 (initWorld 0)).2
      (by decide)).2.2.2.1,
   ((getReposInfo_hit_iff (busyEnv [repoHome, repoA] exClock) 0 (initWorld 0)).2
      (by decide)).2.2.2.2.2,
   ((getReposInfo_hit_iff (stdEnv [] exClock) 0
      ⟨1500, [repoA], 0, 2, [RpcCall.listLocalRepos], []⟩).1.2 (by decide)).1,
   ((getReposInfo_hit_iff (stdEnv [] exClock) 0
      ⟨1500, [repoA], 0, 2, [RpcCall.listLocalRepos], []⟩).1.2 (by decide)).2.1⟩

theorem handleListRepos_eq {D : Type} (env : Env D) (arg : QString) (ts : Nat)
    (w : World D) (hts : env.toULongLong arg = some ts) :
    handleListRepos env [arg] w =
        (List.intercalate ['\n'] ((getReposInfo env ts w).1.map repoRecord),
          (getReposInfo env ts w).2) := by
  simp [handleListRepos, hts, listLocalRepos, foldl_listReposStep, join_eq_intercalate]
theorem toU64_lt (x : Int) : toU64 x < 2 ^ 64 := by
  unfold toU64; omega

theorem toU64_of_range (x : Int) (h0 : 0 ≤ x) (h1 : x < 2 ^ 63) : (toU64 x : Int) = x := by
  unfold toU64; omega

theorem sub64_of_le (a b : Nat) (ha : a < 2 ^ 64) (hba : b ≤ a) : sub64 a b = a - b := by
  unfold sub64; omega

theorem getReposInfo_cached_info {D : Type} (env : Env D) (ts : Nat) (w : World D) :
    (getReposInfo env ts w).2.cached_info_ = (getReposInfo env ts w).1 := by
  by_cases h : cacheHit w.cache_ts_ ts (toU64 (env.clock w.clock_reads))
  · rw [getReposInfo_hit env ts w h]
  · exact (getReposInfo_miss env ts w h).2.2.1

/-- C2 (as amended): for two successive `list-repos` requests with client
timestamps `t1 <= t2`, when the second arrives less than 2000 ms after the
timestamp of the snapshot held after the first and `t2` is below that
timestamp, the second request returns the same response as the first, makes no
call through `rpc_` and leaves the snapshot and its timestamp as they are. -/
theorem listRepos_twice_within_window {D : Type} (env : Env D) (a1 a2 : QString)
    (t1 t2 : Nat) (w : World D)
    (h1 : env.toULongLong a1 = some t1) (h2 : env.toULongLong a2 = some t2)
    (_hle : t1 ≤ t2)
    (hnewer : t2 < (handleListRepos env [a1] w).2.cache_ts_)
    (hafter : (handleListRepos env [a1] w).2.cache_ts_ ≤
      toU64 (env.clock (handleListRepos env [a1] w).2.clock_reads))
    (hwin : toU64 (env.clock (handleListRepos env [a1] w).2.clock_reads) -
      (handleListRepos env [a1] w).2.cache_ts_ < 2000) :
    (handleListRepos env [a2] (handleListRepos env [a1] w).2).1 =
        (handleListRepos env [a1] w).1 ∧
      (handleListRepos env [a2] (handleListRepos env [a1] w).2).2.rpc_calls =
        (handleListRepos env [a1] w).2.rpc_calls ∧
      (handleListRepos env [a2] (handleListRepos env [a1] w).2).2.cached_info_ =
        (handleListRepos env [a1] w).2.cached_info_ ∧
      (handleListRepos env [a2] (handleListRepos env [a1] w).2).2.cache_ts_ =
        (handleListRepos env [a1] w).2.cache_ts_ := by
  have e1 := (handleListRepos_eq env a1 t1 w h1)
  rw [e1] at hnewer hafter hwin ⊢
  simp only at hnewer hafter hwin ⊢
  have hhit : cacheHit (getReposInfo env t1 w).2.cache_ts_ t2
      (toU64 (env.clock (getReposInfo env t1 w).2.clock_reads)) := by
    refine ⟨by omega, hnewer, ?_⟩
    rw [sub64_of_le _ _ (toU64_lt _) hafter]
    exact hwin
  rw [handleListRepos_eq env a2 t2 _ h2, getReposInfo_hit env t2 _ hhit]
  simp only [getReposInfo_cached_info]
  exact ⟨trivial, trivial, trivial, trivial⟩

/-- Witness of C2 (as amended): two requests with client timestamp 0; the
first fetches at clock 1000 and stamps the snapshot 1500, the second arrives
at clock 2000. -/
theorem listRepos_twice_within_window_witness :
    (handleListRepos (stdEnv [repoA] exClock) ["0".toList]
        (handleListRepos (stdEnv [repoA] exClock) ["0".toList] (initWorld 0)).2).1 =
        (handleListRepos (stdEnv [repoA] exClock) ["0".toList] (initWorld 0)).1 ∧
      (handleListRepos (stdEnv [repoA] exClock) ["0".toList]
        (handleListRepos (stdEnv [repoA] exClock) ["0".toList] (initWorld 0)).2).2.rpc_calls =
        [RpcCall.listLocalRepos, RpcCall.getSyncStatus repoA] :=
  ⟨(listRepos_twice_within_window (stdEnv [repoA] exClock) "0".toList "0".toList 0 0
      (initWorld 0) rfl rfl (le_refl 0) (by decide) (by decide) (by decide)).1,
   (listRepos_twice_within_window (stdEnv [repoA] exClock) "0".toList "0".toList 0 0
      (initWorld 0) rfl rfl (le_refl 0) (by decide) (by decide) (by decide)).2.1⟩

/-- Counterexample to C2 as stated: the first request carries the client
timestamp 0 and stamps its snapshot 1500; the second carries the larger
client timestamp 1800, arrives 500 ms after the snapshot, at clock 2000, and
fetches again, because 1500 is not above 1800. -/
theorem listRepos_twice_counterexample :
    (stdEnv [repoA] exClock).toULongLong "0".toList = some 0 ∧
      (stdEnv [repoA] exClock).toULongLong "1800".toList = some 1800 ∧
      (handleListRepos (stdEnv [repoA] exClock) ["0".toList] (initWorld 0)).2.cache_ts_
        = 1500 ∧
      toU64 ((stdEnv [repoA] exClock).clock
        (handleListRepos (stdEnv [repoA] exClock) ["0".toList] (initWorld 0)).2.clock_reads)
        = 2000 ∧
      (handleListRepos (stdEnv [repoA] exClock) ["0".toList] (initWorld 0)).2.rpc_calls
        = [RpcCall.listLocalRepos, RpcCall.getSyncStatus repoA] ∧
      (handleListRepos (stdEnv [repoA] exClock) ["1800".toList]
        (handleListRepos (stdEnv [repoA] exClock) ["0".toList]
          (initWorld 0)).2).2.rpc_calls
        = [RpcCall.listLocalRepos, RpcCall.getSyncStatus repoA,
            RpcCall.listLocalRepos, RpcCall.getSyncStatus repoA] := by
  decide

theorem getReposInfo_ts_step {D : Type} (env : Env D) (hclock : ClockSteady env) (ts : Nat)
    (w : World D) (hinit : (w.cache_ts_ : Int) ≤ env.clock w.clock_reads) :
    w.cache_ts_ ≤ (getReposInfo env ts w).2.cache_ts_ ∧
      ((getReposInfo env ts w).2.cache_ts_ : Int) ≤
        env.clock (getReposInfo env ts w).2.clock_reads := by
  obtain ⟨hmono, hrange⟩ := hclock
  by_cases h : cacheHit w.cache_ts_ ts (toU64 (env.clock w.clock_reads))
  · rw [getReposInfo_hit env ts w h]
    exact ⟨le_refl _, le_trans hinit (hmono _ _ (Nat.le_succ _))⟩
  · have hm := getReposInfo_miss env ts w h
    rw [hm.2.1, hm.2.2.2.2.1]
    have e := toU64_of_range _ (hrange (w.clock_reads + 1)).1 (hrange (w.clock_reads + 1)).2
    have h01 := hmono w.clock_reads (w.clock_reads + 1) (Nat.le_succ _)
    have h12 := hmono (w.clock_reads + 1) (w.clock_reads + 2) (Nat.le_succ _)
    constructor
    · have : (w.cache_ts_ : Int) ≤ (toU64 (env.clock (w.clock_reads + 1)) : Int) := by
        rw [e]; exact le_trans hinit h01
      exact_mod_cast this
    · rw [e]; exact h12

theorem cacheTsTrace_chain {D : Type} (env : Env D) (hclock : ClockSteady env)
    (tss : List Nat) (w : World D) (hinit : (w.cache_ts_ : Int) ≤ env.clock w.clock_reads) :
    List.Chain (fun a b => a ≤ b) w.cache_ts_ (cacheTsTrace env tss w) := by
  induction tss generalizing w with
  | nil => exact List.Chain.nil
  | cons ts rest ih =>
    have hs := getReposInfo_ts_step env hclock ts w hinit
    exact List.Chain.cons hs.1 (ih _ hs.2)

/-- C10 (as amended): when the wall clock never goes back (successive readings
non-decreasing, non-negative and within `qint64`) and the held timestamp is
not ahead of the clock at the start, then across every sequence of
`getReposInfo` calls, with any client timestamps, the values of `cache_ts_`
are non-decreasing. -/
theorem cache_ts_monotone {D : Type} (env : Env D) (hclock : ClockSteady env)
    (tss : List Nat) (w : World D) (hinit : (w.cache_ts_ : Int) ≤ env.clock w.clock_reads) :
    List.Sorted (fun a b => a ≤ b) (w.cache_ts_ :: cacheTsTrace env tss w) := by
  have h := cacheTsTrace_chain env hclock tss w hinit
  exact List.chain_iff_pairwise.mp h

theorem exClock_steady (repos : List LocalRepo) : ClockSteady (stdEnv repos exClock) := by
  refine ⟨?_, ?_⟩
  · intro i j h
    simp only [stdEnv, exClock]
    omega
  · intro i
    simp only [stdEnv, exClock]
    omega

/-- Witness of C10 (as amended): four calls under a clock that advances
500 ms per reading; the timestamps are 0, then 1500, 2500 (client timestamp
5000 forces a fetch), 2500 (a hit), 4000. -/
theorem cache_ts_monotone_witness :
    ClockSteady (stdEnv [repoA] exClock) ∧
      cacheTsTrace (stdEnv [repoA] exClock) [0, 5000, 0, 2500] (initWorld 0)
        = [1500, 2500, 2500, 4000] ∧
      List.Sorted (fun a b => a ≤ b)
        (0 :: cacheTsTrace (stdEnv [repoA] exClock) [0, 5000, 0, 2500] (initWorld 0)) :=
  ⟨exClock_steady [repoA], by decide,
   cache_ts_monotone (stdEnv [repoA] exClock) (exClock_steady [repoA]) [0, 5000, 0, 2500]
     (initWorld 0) (by decide)⟩

/-- Counterexample to C10 as stated: the wall clock is set back 100 ms between
readings; the first call stamps the snapshot 900, the second call (clock 800,
so the unsigned difference is far above 2000) fetches again and stamps it
700. -/
theorem cache_ts_monotone_counterexample :
    cacheTsTrace (stdEnv [repoA] backClock) [0, 0] (initWorld 0) = [900, 700] ∧
      ¬ List.Sorted (fun a b => a ≤ b)
        ((initWorld 0).cache_ts_ :: cacheTsTrace (stdEnv [repoA] backClock) [0, 0]
          (initWorld 0)) := by
  decide

/-! ### `handleGenShareLink` -/

theorem find?_first_match (p : QString) (pre post : List LocalRepo) (r : LocalRepo)
    (hpre : ∀ x ∈ pre, ¬ wtMatches p x) (hr : wtMatches p r) :
    (pre ++ r :: post).find? (fun x => decide (wtMatches p x)) = some r := by
  induction pre with
  | nil => simp [hr]
  | cons a t ih =>
    have ha : ¬ wtMatches p a := hpre a (List.mem_cons_self _ _)
    simp only [List.cons_append, List.find?_cons, ha, decide_False]
    exact ih (fun x hx => hpre x (List.mem_cons_of_mem _ hx))

theorem find?_no_match (p : QString) (snap : List LocalRepo)
    (h : ∀ x ∈ snap, ¬ wtMatches p x) :
    snap.find? (fun x => decide (wtMatches p x)) = none := by
  simp only [List.find?_eq_none, decide_eq_true_eq]
  exact h

theorem handleGenShareLink_eq {D : Type} (env : Env D) (arg : QString) (w : World D) :
    (handleGenShareLink env [arg] w).share_links =
      w.share_links ++
        (((getReposInfo env env.default_ts w).1.find?
            (fun r => decide (wtMatches (normalizedPath arg) r))).map (fun r =>
          (⟨r.id, (normalizedPath arg).drop (normalizedPath r.worktree).length,
            env.isFile (normalizedPath arg)⟩ : ShareLinkEvent))).toList := by
  simp only [handleGenShareLink, List.length_singleton, ne_eq, not_true_eq_false, if_false,
    listLocalRepos, List.getD_cons_zero, genShareLinkLoop_eq, getReposInfo_share_links]

/-- C3: for a single path argument, `handleGenShareLink` emits at most one
`generateShareLink` signal: with `p` the normalized argument, it emits one for
the first repo of the snapshot, in snapshot order, whose normalized worktree
`w` is a strict prefix of `p` with `p[len(w)] == '/'`, carrying the id of that
repo, also when a later repo matches as well, and it emits none when no repo
satisfies the rule; worktree `/home/u/RepoA` does not match path
`/home/u/RepoA2/x`. -/
theorem handleGenShareLink_first_match {D : Type} (env : Env D) (arg : QString)
    (w : World D) :
    (handleGenShareLink env [arg] w).share_links.length ≤ w.share_links.length + 1 ∧
    (∀ pre r post, (getReposInfo env env.default_ts w).1 = pre ++ r :: post →
      (∀ x ∈ pre, ¬ wtMatches (normalizedPath arg) x) → wtMatches (normalizedPath arg) r →
      (handleGenShareLink env [arg] w).share_links =
        w.share_links ++ [⟨r.id, (normalizedPath arg).drop (normalizedPath r.worktree).length,
          env.isFile (normalizedPath arg)⟩]) ∧
    ((∀ x ∈ (getReposInfo env env.default_ts w).1, ¬ wtMatches (normalizedPath arg) x) →
      (handleGenShareLink env [arg] w).share_links = w.share_links) ∧
    (∀ i n a s, ¬ wtMatches (normalizedPath "/home/u/RepoA2/x".toList)
      ⟨i, n, "/home/u/RepoA".toList, a, s⟩) := by
  refine ⟨?_, ?_, ?_, ?_⟩
  · rw [handleGenShareLink_eq]
    cases (getReposInfo env env.default_ts w).1.find?
      (fun r => decide (wtMatches (normalizedPath arg) r)) <;> simp
  · intro pre r post hsnap hpre hr
    rw [handleGenShareLink_eq, hsnap, find?_first_match _ pre post r hpre hr]
    rfl
  · intro hnone
    rw [handleGenShareLink_eq, find?_no_match _ _ hnone]
    simp
  · intro i n a s
    show ¬ (normalizedPath "/home/u/RepoA".toList <+: normalizedPath "/home/u/RepoA2/x".toList ∧
      normalizedPath "/home/u/RepoA".toList ≠ normalizedPath "/home/u/RepoA2/x".toList ∧
      (normalizedPath "/home/u/RepoA2/x".toList).get?
        (normalizedPath "/home/u/RepoA".toList).length = some '/')
    decide

/-- Witness of C3: the snapshot lists `/home/u/` before `/home/u/RepoA`; for
the path `/home/u/RepoA/docs/f.txt` both match and the signal carries the id
of the first; for `/home/v/x` neither matches and no signal is emitted. -/
theorem handleGenShareLink_first_match_witness :
    wtMatches (normalizedPath "/home/u/RepoA/docs/f.txt".toList) repoA ∧
    (handleGenShareLink (stdEnv [repoHome, repoA] exClock) ["/home/u/RepoA/docs/f.txt".toList]
        (initWorld 0)).share_links
      = [⟨"idH".toList, "/RepoA/docs/f.txt".toList, true⟩] ∧
    (handleGenShareLink (stdEnv [repoHome, repoA] exClock) ["/home/v/x".toList]
        (initWorld 0)).share_links = [] :=
  ⟨by decide,
   (handleGenShareLink_first_match (stdEnv [repoHome, repoA] exClock)
      "/home/u/RepoA/docs/f.txt".toList (initWorld 0)).2.1 [] repoHome [repoA] rfl
      (by decide) (by decide),
   (handleGenShareLink_first_match (stdEnv [repoHome, repoA] exClock)
      "/home/v/x".toList (initWorld 0)).2.2.1 (by decide)⟩

/-- C4 (as amended): when a repo with normalized worktree `w` is the first
match, the path-in-repo of the emitted signal is the normalized input path
with its `len(w)` leading characters removed: it begins with the separating
slash, and `w` followed by it is the normalized input path; for path
`/home/u/RepoA/docs/f.txt` and worktree `/home/u/RepoA` it is `/docs/f.txt`. -/
theorem handleGenShareLink_path_in_repo {D : Type} (env : Env D) (arg : QString)
    (w : World D) (pre post : List LocalRepo) (r : LocalRepo)
    (hsnap : (getReposInfo env env.default_ts w).1 = pre ++ r :: post)
    (hpre : ∀ x ∈ pre, ¬ wtMatches (normalizedPath arg) x)
    (hr : wtMatches (normalizedPath arg) r) :
    (handleGenShareLink env [arg] w).share_links =
        w.share_links ++ [⟨r.id,
          '/' :: (normalizedPath arg).drop ((normalizedPath r.worktree).length + 1),
          env.isFile (normalizedPath arg)⟩] ∧
      normalizedPath r.worktree ++
          '/' :: (normalizedPath arg).drop ((normalizedPath r.worktree).length + 1)
        = normalizedPath arg := by
  have hdrop : (normalizedPath arg).drop (normalizedPath r.worktree).length =
      '/' :: (normalizedPath arg).drop ((normalizedPath r.worktree).length + 1) := by
    obtain ⟨_, _, hc⟩ := hr
    rw [List.get?_eq_getElem?] at hc
    obtain ⟨hlt, hget⟩ := List.getElem?_eq_some_iff.mp hc
    rw [List.drop_eq_getElem_cons hlt, hget]
  constructor
  · rw [handleGenShareLink_eq, hsnap, find?_first_match _ pre post r hpre hr, ← hdrop]
    rfl
  · rw [← hdrop]
    obtain ⟨⟨t, ht⟩, _, _⟩ := hr
    conv_rhs => rw [← ht]
    rw [← ht, List.drop_left]

/-- Witness of C4 (as amended): the example of the spec; the signal carries
`/docs/f.txt`. -/
theorem handleGenShareLink_path_in_repo_witness :
    (handleGenShareLink (stdEnv [repoA] exClock) ["/home/u/RepoA/docs/f.txt".toList]
        (initWorld 0)).share_links
      = [⟨"idA".toList, "/docs/f.txt".toList, true⟩] :=
  (handleGenShareLink_path_in_repo (stdEnv [repoA] exClock) "/home/u/RepoA/docs/f.txt".toList
    (initWorld 0) [] [] repoA rfl (by decide) (by decide)).1

/-- Counterexample to C4 as stated: for path `/home/u/RepoA/docs/f.txt` and
worktree `/home/u/RepoA` (13 characters) the signal carries `/docs/f.txt`, not
the path with 14 characters removed, `docs/f.txt`. -/
theorem handleGenShareLink_path_in_repo_counterexample :
    (normalizedPath repoA.worktree).length = 13 ∧
    (normalizedPath "/home/u/RepoA/docs/f.txt".toList).drop 14 = "docs/f.txt".toList ∧
    ((handleGenShareLink (stdEnv [repoA] exClock) ["/home/u/RepoA/docs/f.txt".toList]
        (initWorld 0)).share_links.map (fun e => e.path_in_repo))
      = ["/docs/f.txt".toList] ∧
    ((handleGenShareLink (stdEnv [repoA] exClock) ["/home/u/RepoA/docs/f.txt".toList]
        (initWorld 0)).share_links.map (fun e => e.path_in_repo))
      ≠ ["docs/f.txt".toList] := by
  decide

/-! ### Framing -/

theorem splitLoop_eq (sep : Char) (cs cur : QString) :
    splitLoop sep cs cur =
      ((cs.splitOnP (fun c => c == sep)).modifyHead (fun f => cur.reverse ++ f)).filter
        (fun f => !f.isEmpty) := by
  induction cs generalizing cur with
  | nil =>
    cases cur with
    | nil => simp [splitLoop, List.modifyHead]
    | cons a t => simp [splitLoop, List.modifyHead, List.filter_cons]
  | cons c cs ih =>
    rw [splitLoop, List.splitOnP_cons]
    by_cases hc : c = sep
    · have ih0 := ih []
      simp only [List.reverse_nil, List.nil_append] at ih0
      have hid : (fun f : List Char => f) = id := rfl
      rw [hid, List.modifyHead_id] at ih0
      cases cur with
      | nil => simp [hc, ih0, List.modifyHead, List.filter_cons]
      | cons a t => simp [hc, ih0, List.modifyHead, List.filter_cons]
    · have hb : (c == sep) = false := by simpa using hc
      simp only [hc, if_false, hb, Bool.false_eq_true]
      rw [ih, List.modifyHead_modifyHead]
      congr 2
      funext f
      simp

theorem split_eq_requestFields (t : QString) : split t '\t' = requestFields t := by
  rw [split, splitLoop_eq, requestFields, List.splitOn]
  have hid : (fun f : List Char => ([] : List Char).reverse ++ f) = id := by
    funext f; simp
  rw [hid, List.modifyHead_id]
  rfl

theorem u32OfBytes_u32Bytes (n : Nat) (h : n < 2 ^ 32) : u32OfBytes (u32Bytes n) = n := by
  simp only [u32Bytes, u32OfBytes, toU32]
  omega

theorem extPipeReadN_append (pipe : Pipe) (a rest : List Nat) (n : Nat)
    (hin : pipe.inbound = a ++ rest) (hn : a.length = n) :
    extPipeReadN pipe n = (some a, { pipe with inbound := rest }) := by
  have hlen : ¬ pipe.inbound.length < n := by
    rw [hin, List.length_append, hn]; omega
  simp only [extPipeReadN, hlen, if_false]
  rw [hin, ← hn, List.take_left, List.drop_left]

theorem cString_terminated (data : List Nat) (h : 0 ∉ data) : cString (data ++ [0]) = data := by
  induction data with
  | nil => simp [cString, List.takeWhile]
  | cons b t ih =>
    have hb : b ≠ 0 := fun e => h (e ▸ List.mem_cons_self _ _)
    have ht : 0 ∉ t := fun m => h (List.mem_cons_of_mem _ m)
    have hb2 : (b != 0) = true := by simpa using hb
    have := ih ht
    unfold cString at this ⊢
    rw [List.cons_append, List.takeWhile_cons, hb2, if_pos rfl, this]

theorem sendResponse_ok (resp : QString) (pipe : Pipe)
    (hlen : (toUtf8 resp).length < 2 ^ 32)
    (hcap : 4 + (toUtf8 resp).length ≤ pipe.wcap) :
    sendResponse resp pipe =
      (true, { pipe with
        outbound := pipe.outbound ++ (u32Bytes (toUtf8 resp).length ++ toUtf8 resp),
        wcap := pipe.wcap - (4 + (toUtf8 resp).length) }) := by
  have h32 : toU32 (toUtf8 resp).length = (toUtf8 resp).length := by
    unfold toU32; omega
  have h4 : ¬ pipe.wcap < 4 := by omega
  simp only [sendResponse, h32, extPipeWriteN, u32Bytes, List.length_cons, List.length_nil,
    Nat.reduceAdd, h4, if_false]
  by_cases h0 : (toUtf8 resp).length > 0
  · have h5 : ¬ pipe.wcap - 4 < (toUtf8 resp).length := by omega
    simp only [h0, if_true, List.take_length, h5, if_false]
    simp [Nat.sub_sub, List.append_assoc]
  · have hz : (toUtf8 resp).length = 0 := by omega
    have hnil : toUtf8 resp = [] := List.length_eq_zero.mp hz
    simp [hnil]

theorem frameOf_eq (t : QString) (hlen : (toUtf8 t).length < 2 ^ 32) :
    frameOf t = u32Bytes (toUtf8 t).length ++ toUtf8 t := by
  unfold frameOf
  rw [sendResponse_ok t _ hlen (le_refl _)]
  simp

theorem readRequest_framed (pipe : Pipe) (data rest : List Nat)
    (hin : pipe.inbound = u32Bytes data.length ++ data ++ rest)
    (hne : data ≠ []) (hlen : data.length < 2 ^ 32 - 1) :
    readRequest pipe =
      if (split (fromUtf8 (cString (data ++ [0]))) '\t').isEmpty then
        ReadResult.failed { pipe with inbound := rest }
      else ReadResult.ok (split (fromUtf8 (cString (data ++ [0]))) '\t')
        { pipe with inbound := rest } := by
  have hpos : data.length ≠ 0 := fun h => hne (List.length_eq_zero.mp h)
  have hlen32 : data.length < 2 ^ 32 := by omega
  have hfit : ¬ toU32 (data.length + 1) ≤ data.length := by
    unfold toU32; omega
  have h1 : extPipeReadN pipe 4 =
      (some (u32Bytes data.length), { pipe with inbound := data ++ rest }) :=
    extPipeReadN_append pipe _ _ 4 (by rw [hin, List.append_assoc]) rfl
  have h2 : extPipeReadN { pipe with inbound := data ++ rest } data.length =
      (some data, { pipe with inbound := rest }) :=
    extPipeReadN_append _ _ _ _ rfl rfl
  simp only [readRequest, h1, u32OfBytes_u32Bytes _ hlen32, hpos, hfit, if_false, h2]

/-! ### The UTF-8 codec -/

theorem utf8Decode_cons (b0 : Nat) (rest : List Nat) :
    utf8Decode (b0 :: rest) =
    (if b0 < 128 then Char.ofNat b0 :: utf8Decode rest
    else if b0 < 192 then Char.ofNat 65533 :: utf8Decode rest
    else if b0 < 224 then
      match rest with
      | b1 :: r1 =>
        if isCont b1 && validCode 128 2048 ((b0 - 192) * 64 + (b1 - 128)) then
          Char.ofNat ((b0 - 192) * 64 + (b1 - 128)) :: utf8Decode r1
        else Char.ofNat 65533 :: utf8Decode rest
      | _ => Char.ofNat 65533 :: utf8Decode rest
    else if b0 < 240 then
      match rest with
      | b1 :: b2 :: r2 =>
        if isCont b1 && isCont b2
            && validCode 2048 65536 ((b0 - 224) * 4096 + (b1 - 128) * 64 + (b2 - 128)) then
          Char.ofNat ((b0 - 224) * 4096 + (b1 - 128) * 64 + (b2 - 128)) :: utf8Decode r2
        else Char.ofNat 65533 :: utf8Decode rest
      | _ => Char.ofNat 65533 :: utf8Decode rest
    else
      match rest with
      | b1 :: b2 :: b3 :: r3 =>
        if isCont b1 && isCont b2 && isCont b3
            && validCode 65536 1114112
              ((b0 - 240) * 262144 + (b1 - 128) * 4096 + (b2 - 128) * 64 + (b3 - 128)) then
          Char.ofNat ((b0 - 240) * 262144 + (b1 - 128) * 4096 + (b2 - 128) * 64 + (b3 - 128))
            :: utf8Decode r3
        else Char.ofNat 65533 :: utf8Decode rest
      | _ => Char.ofNat 65533 :: utf8Decode rest) := by
  cases rest with
  | nil => rfl
  | cons b1 r1 =>
    cases r1 with
    | nil => rfl
    | cons b2 r2 =>
      cases r2 with
      | nil => rfl
      | cons b3 r3 => rfl

theorem char_toNat_valid (c : Char) :
    c.toNat < 55296 ∨ (57343 < c.toNat ∧ c.toNat < 1114112) := by
  have h := c.valid
  simp only [UInt32.isValidChar, Nat.isValidChar] at h
  exact h

theorem validCode_of_char (lo hi : Nat) (c : Char) (h1 : lo ≤ c.toNat) (h2 : c.toNat < hi) :
    validCode lo hi c.toNat = true := by
  have hv := char_toNat_valid c
  simp only [validCode, Bool.and_eq_true, decide_eq_true_eq, Bool.not_eq_true',
    Bool.and_eq_false_imp, decide_eq_false_iff_not]
  omega

theorem utf8Decode_encodeChar (c : Char) (rest : List Nat) :
    utf8Decode (utf8EncodeChar c ++ rest) = c :: utf8Decode rest := by
  have hv := char_toNat_valid c
  have hc : Char.ofNat c.toNat = c := Char.ofNat_toNat c
  unfold utf8EncodeChar
  simp only
  by_cases h1 : c.toNat < 128
  · simp only [h1, if_true, List.singleton_append]
    rw [utf8Decode_cons]
    simp only [h1, if_true, hc]
  · by_cases h2 : c.toNat < 2048
    · simp only [h1, h2, if_true, if_false, List.cons_append, List.nil_append]
      rw [utf8Decode_cons]
      have a1 : ¬ 192 + c.toNat / 64 < 128 := by omega
      have a2 : ¬ 192 + c.toNat / 64 < 192 := by omega
      have a3 : 192 + c.toNat / 64 < 224 := by omega
      have a4 : isCont (128 + c.toNat % 64) = true := by
        simp only [isCont, Bool.and_eq_true, decide_eq_true_eq]; omega
      have a5 : (192 + c.toNat / 64 - 192) * 64 + (128 + c.toNat % 64 - 128) = c.toNat := by
        omega
      have a6 := validCode_of_char 128 2048 c (by omega) h2
      simp only [a1, a2, a3, a4, a5, a6, hc, if_true, if_false, Bool.and_self]
    · by_cases h3 : c.toNat < 65536
      · simp only [h1, h2, h3, if_true, if_false, List.cons_append, List.nil_append]
        rw [utf8Decode_cons]
        have a1 : ¬ 224 + c.toNat / 4096 < 128 := by omega
        have a2 : ¬ 224 + c.toNat / 4096 < 192 := by omega
        have a3 : ¬ 224 + c.toNat / 4096 < 224 := by omega
        have a3b : 224 + c.toNat / 4096 < 240 := by omega
        have a4 : isCont (128 + c.toNat / 64 % 64) = true := by
          simp only [isCont, Bool.and_eq_true, decide_eq_true_eq]; omega
        have a4b : isCont (128 + c.toNat % 64) = true := by
          simp only [isCont, Bool.and_eq_true, decide_eq_true_eq]; omega
        have a5 : (224 + c.toNat / 4096 - 224) * 4096 + (128 + c.toNat / 64 % 64 - 128) * 64
            + (128 + c.toNat % 64 - 128) = c.toNat := by
          omega
        have a6 := validCode_of_char 2048 65536 c (by omega) h3
        simp only [a1, a2, a3, a3b, a4, a4b, a5, a6, hc, if_true, if_false, Bool.and_self]
      · simp only [h1, h2, h3, if_false, List.cons_append, List.nil_append]
        rw [utf8Decode_cons]
        have a1 : ¬ 240 + c.toNat / 262144 < 128 := by omega
        have a2 : ¬ 240 + c.toNat / 262144 < 192 := by omega
        have a3 : ¬ 240 + c.toNat / 262144 < 224 := by omega
        have a3b : ¬ 240 + c.toNat / 262144 < 240 := by omega
        have a4 : isCont (128 + c.toNat / 4096 % 64) = true := by
          simp only [isCont, Bool.and_eq_true, decide_eq_true_eq]; omega
        have a4b : isCont (128 + c.toNat / 64 % 64) = true := by
          simp only [isCont, Bool.and_eq_true, decide_eq_true_eq]; omega
        have a4c : isCont (128 + c.toNat % 64) = true := by
          simp only [isCont, Bool.and_eq_true, decide_eq_true_eq]; omega
        have a5 : (240 + c.toNat / 262144 - 240) * 262144
            + (128 + c.toNat / 4096 % 64 - 128) * 4096
            + (128 + c.toNat / 64 % 64 - 128) * 64
            + (128 + c.toNat % 64 - 128) = c.toNat := by
          omega
        have a6 := validCode_of_char 65536 1114112 c (by omega) (by omega)
        simp only [a1, a2, a3, a3b, a4, a4b, a4c, a5, a6, hc, if_false, if_true,
          Bool.and_self]

/-- Decoding without regard to a byte order mark inverts the encoding. -/
theorem utf8Decode_utf8Encode (s : QString) : utf8Decode (utf8Encode s) = s := by
  induction s with
  | nil => rfl
  | cons c t ih =>
    have : utf8Encode (c :: t) = utf8EncodeChar c ++ utf8Encode t := by
      simp [utf8Encode]
    rw [this, utf8Decode_encodeChar, ih]

theorem utf8EncodeChar_zero (c : Char) : 0 ∈ utf8EncodeChar c ↔ c = Char.ofNat 0 := by
  have hc : Char.ofNat c.toNat = c := Char.ofNat_toNat c
  constructor
  · intro h
    unfold utf8EncodeChar at h
    simp only at h
    split_ifs at h with h1 h2 h3
    · simp only [List.mem_singleton] at h
      rw [← hc, ← h]
    · simp only [List.mem_cons, List.mem_singleton, List.not_mem_nil, or_false] at h
      omega
    · simp only [List.mem_cons, List.mem_singleton, List.not_mem_nil, or_false] at h
      omega
    · simp only [List.mem_cons, List.mem_singleton, List.not_mem_nil, or_false] at h
      omega
  · intro h
    subst h
    decide

/-- The encoding has a zero byte exactly when the text has the character
U+0000. -/
theorem utf8Encode_zero (s : QString) : 0 ∈ utf8Encode s ↔ Char.ofNat 0 ∈ s := by
  simp only [utf8Encode, List.mem_flatMap, utf8EncodeChar_zero]
  constructor
  · rintro ⟨c, hc, rfl⟩; exact hc
  · intro h; exact ⟨_, h, rfl⟩

theorem utf8Encode_ne_nil (s : QString) (h : s ≠ []) : utf8Encode s ≠ [] := by
  intro he
  have := utf8Decode_utf8Encode s
  rw [he] at this
  exact h this.symm

/-- The encoding of a text starts with the bytes of the byte order mark only
when the text starts with U+FEFF. -/
theorem utf8Encode_bom (s : QString) (h : utf8bom <+: utf8Encode s) :
    s.head? = some (Char.ofNat 65279) := by
  cases s with
  | nil =>
    obtain ⟨t, ht⟩ := h
    simp [utf8Encode, utf8bom] at ht
  | cons c rest =>
    have hc : Char.ofNat c.toNat = c := Char.ofNat_toNat c
    have he : utf8Encode (c :: rest) = utf8EncodeChar c ++ utf8Encode rest := by
      simp [utf8Encode]
    rw [he] at h
    obtain ⟨t, ht⟩ := h
    have hv : c.toNat = 65279 := by
      unfold utf8EncodeChar utf8bom at ht
      simp only at ht
      split_ifs at ht with h1 h2 h3
      · simp only [List.cons_append, List.nil_append, List.cons.injEq] at ht
        omega
      · simp only [List.cons_append, List.nil_append, List.cons.injEq] at ht
        omega
      · simp only [List.cons_append, List.nil_append, List.cons.injEq] at ht
        omega
      · simp only [List.cons_append, List.nil_append, List.cons.injEq] at ht
        omega
    simp only [List.head?_cons, Option.some.injEq]
    rw [← hc, hv]

/-- The codec of the string library decodes back every text that does not
start with U+FEFF. -/
theorem fromUtf8_toUtf8 (s : QString) (h : s.head? ≠ some (Char.ofNat 65279)) :
    fromUtf8 (toUtf8 s) = s := by
  have hb : utf8bom.isPrefixOf (utf8Encode s) = false := by
    rw [← Bool.not_eq_true, List.isPrefixOf_iff_prefix]
    exact fun hp => h (utf8Encode_bom s hp)
  simp only [fromUtf8, toUtf8, hb, Bool.false_eq_true, if_false]
  exact utf8Decode_utf8Encode s

/-! ### The round trip of the framing -/

/-- C7 (as amended): for every request text `t` that has at least one
non-empty tab-separated field, contains no character U+0000, does not start
with the byte order mark U+FEFF and encodes to fewer than `2^31` bytes (the
bound of a `QByteArray`), the frame that `sendResponse` builds is the four
bytes of the byte count followed by exactly the UTF-8 bytes of `t`, and
`readRequest` decodes it successfully into exactly the non-empty
tab-separated fields of `t`, in order, leaving what follows the frame in the
pipe. -/
theorem readRequest_frameOf (t : QString) (pipe : Pipe) (rest : List Nat)
    (hfields : requestFields t ≠ [])
    (hnul : Char.ofNat 0 ∉ t)
    (hbom : t.head? ≠ some (Char.ofNat 65279))
    (hlen : (toUtf8 t).length < 2 ^ 31)
    (hin : pipe.inbound = frameOf t ++ rest) :
    frameOf t = u32Bytes (toUtf8 t).length ++ toUtf8 t ∧
      u32OfBytes (u32Bytes (toUtf8 t).length) = (toUtf8 t).length ∧
      readRequest pipe = ReadResult.ok (requestFields t) { pipe with inbound := rest } := by
  have hlen32 : (toUtf8 t).length < 2 ^ 32 := by omega
  have ht : t ≠ [] := by
    intro h
    apply hfields
    rw [h]
    rfl
  have hframe := frameOf_eq t hlen32
  have hne : toUtf8 t ≠ [] := utf8Encode_ne_nil t ht
  have hz : 0 ∉ toUtf8 t := fun h => hnul ((utf8Encode_zero t).mp h)
  refine ⟨hframe, u32OfBytes_u32Bytes _ hlen32, ?_⟩
  rw [readRequest_framed pipe (toUtf8 t) rest (by rw [hin, hframe]) hne (by omega),
    cString_terminated _ hz, fromUtf8_toUtf8 t hbom, split_eq_requestFields]
  have : (requestFields t).isEmpty = false := by
    cases h : requestFields t with
    | nil => exact absurd h hfields
    | cons a l => rfl
  simp [this]

/-- Witness of C7 (as amended): a request with an empty field and non-ASCII
characters, followed in the pipe by the first byte of the next frame. -/
theorem readRequest_frameOf_witness :
    readRequest ⟨frameOf "get-share-link\t\tC:/é€/x".toList ++ [7], [], 0⟩
      = ReadResult.ok ["get-share-link".toList, "C:/é€/x".toList] ⟨[7], [], 0⟩ :=
  (readRequest_frameOf "get-share-link\t\tC:/é€/x".toList
    ⟨frameOf "get-share-link\t\tC:/é€/x".toList ++ [7], [], 0⟩ [7]
    (by decide) (by decide) (by decide) (by decide) rfl).2.2

/-- Counterexample to C7 as stated, in two texts. The text
`list-repos<TAB>0<NUL>junk` is valid UTF-8 of 17 bytes with the fields
`list-repos` and `0<NUL>junk`; `readRequest` reads its frame as a C string
and returns the fields `list-repos` and `0`. The text
`<U+FEFF>list-repos<TAB>0` is valid UTF-8 of 15 bytes whose first field
starts with U+FEFF; `fromUtf8` skips the three bytes of that character as a
byte order mark and `readRequest` returns the fields `list-repos` and `0`. -/
theorem readRequest_frameOf_counterexample :
    (utf8Decode (utf8Encode "list-repos\t0\x00junk".toList) = "list-repos\t0\x00junk".toList ∧
      (toUtf8 "list-repos\t0\x00junk".toList).length = 17 ∧
      requestFields "list-repos\t0\x00junk".toList
        = ["list-repos".toList, "0\x00junk".toList] ∧
      readRequest ⟨frameOf "list-repos\t0\x00junk".toList, [], 0⟩
        = ReadResult.ok ["list-repos".toList, "0".toList] ⟨[], [], 0⟩) ∧
    (utf8Decode (utf8Encode (Char.ofNat 65279 :: "list-repos\t0".toList))
        = Char.ofNat 65279 :: "list-repos\t0".toList ∧
      (toUtf8 (Char.ofNat 65279 :: "list-repos\t0".toList)).length = 15 ∧
      requestFields (Char.ofNat 65279 :: "list-repos\t0".toList)
        = [Char.ofNat 65279 :: "list-repos".toList, "0".toList] ∧
      readRequest ⟨frameOf (Char.ofNat 65279 :: "list-repos\t0".toList), [], 0⟩
        = ReadResult.ok ["list-repos".toList, "0".toList] ⟨[], [], 0⟩) := by
  decide

/-! ### The connection loop -/

theorem extPipeReadN_some (pipe p1 : Pipe) (n : Nat) (a : List Nat)
    (h : extPipeReadN pipe n = (some a, p1)) :
    p1.inbound.length + n = pipe.inbound.length ∧ p1.outbound = pipe.outbound ∧
      p1.wcap = pipe.wcap := by
  unfold extPipeReadN at h
  split at h
  · cases h
  · rename_i hlen
    simp only [Prod.mk.injEq, Option.some.injEq] at h
    obtain ⟨_, rfl⟩ := h
    refine ⟨?_, rfl, rfl⟩
    simp only [List.length_drop]
    omega

theorem extPipeReadN_outbound (pipe : Pipe) (n : Nat) :
    (extPipeReadN pipe n).2.outbound = pipe.outbound := by
  unfold extPipeReadN
  split <;> rfl

theorem readRequest_failed (pipe p1 : Pipe) (h : readRequest pipe = ReadResult.failed p1) :
    p1.outbound = pipe.outbound := by
  unfold readRequest at h
  split at h
  · rename_i q1 h1
    have e1 := extPipeReadN_outbound pipe 4
    rw [h1] at e1
    simp only [ReadResult.failed.injEq] at h
    rw [← h]; exact e1
  · rename_i hdr q1 h1
    have e1 := extPipeReadN_outbound pipe 4
    rw [h1] at e1
    simp only at h
    split at h
    · simp only [ReadResult.failed.injEq] at h
      rw [← h]; exact e1
    · split at h
      · cases h
      · split at h
        · rename_i q2 h2
          have e2 := extPipeReadN_outbound q1 (u32OfBytes hdr)
          rw [h2] at e2
          simp only [ReadResult.failed.injEq] at h
          rw [← h]; exact e2.trans e1
        · rename_i data q2 h2
          have e2 := extPipeReadN_outbound q1 (u32OfBytes hdr)
          rw [h2] at e2
          split at h
          · simp only [ReadResult.failed.injEq] at h
            rw [← h]; exact e2.trans e1
          · cases h

theorem readRequest_ok (pipe p1 : Pipe) (args : QStringList)
    (h : readRequest pipe = ReadResult.ok args p1) :
    p1.inbound.length + 5 ≤ pipe.inbound.length ∧ p1.outbound = pipe.outbound ∧
      p1.wcap = pipe.wcap ∧ args ≠ [] := by
  unfold readRequest at h
  split at h
  · cases h
  · rename_i hdr q1 h1
    have e1 := extPipeReadN_some pipe q1 4 hdr h1
    simp only at h
    split at h
    · cases h
    · rename_i hlen
      split at h
      · cases h
      · split at h
        · cases h
        · rename_i data q2 h2
          have e2 := extPipeReadN_some q1 q2 _ data h2
          split at h
          · cases h
          · rename_i hne
            simp only [ReadResult.ok.injEq] at h
            obtain ⟨rfl, rfl⟩ := h
            refine ⟨by omega, e2.2.1.trans e1.2.1, e2.2.2.trans e1.2.2, ?_⟩
            intro hnil
            apply hne
            rw [hnil]
            rfl

theorem extPipeWriteN_pipe (pipe : Pipe) (buf : List Nat) :
    (extPipeWriteN pipe buf).2.inbound = pipe.inbound ∧
      pipe.outbound <+: (extPipeWriteN pipe buf).2.outbound := by
  unfold extPipeWriteN
  split
  · exact ⟨rfl, List.prefix_refl _⟩
  · exact ⟨rfl, List.prefix_append _ _⟩

theorem sendResponse_pipe (resp : QString) (pipe : Pipe) :
    (sendResponse resp pipe).2.inbound = pipe.inbound ∧
      pipe.outbound <+: (sendResponse resp pipe).2.outbound := by
  unfold sendResponse
  simp only
  split
  · rename_i p1 h1
    have := extPipeWriteN_pipe pipe (u32Bytes (toU32 (toUtf8 resp).length))
    rw [h1] at this
    exact this
  · rename_i p1 h1
    have e1 := extPipeWriteN_pipe pipe (u32Bytes (toU32 (toUtf8 resp).length))
    rw [h1] at e1
    split
    · have e2 := extPipeWriteN_pipe p1 ((toUtf8 resp).take (toU32 (toUtf8 resp).length))
      exact ⟨e2.1.trans e1.1, List.IsPrefix.trans e1.2 e2.2⟩
    · exact e1

/-- Termination of the loop of `run`: with more rounds than the input has
bytes the loop never runs out of rounds. -/
theorem runLoop_terminates {D : Type} (env : Env D) (fuel : Nat) (pipe : Pipe) (w : World D)
    (h : pipe.inbound.length < fuel) : ∃ r, runLoop env fuel pipe w = some r := by
  induction fuel generalizing pipe w with
  | zero => omega
  | succ n ih =>
    rw [runLoop]
    split
    · exact ⟨_, rfl⟩
    · exact ⟨_, rfl⟩
    · exact ⟨_, rfl⟩
    · rename_i cmd args p1 hread
      have hr := readRequest_ok pipe p1 _ hread
      simp only
      split
      · exact ⟨_, rfl⟩
      · rename_i p2 hsend
        have hs : p2.inbound = p1.inbound := by
          have := (sendResponse_pipe (dispatch env cmd args w).1 p1).1
          rw [hsend] at this
          exact this
        apply ih
        rw [hs]
        omega

theorem runLoop_fuel_succ {D : Type} (env : Env D) (fuel : Nat) (pipe : Pipe) (w : World D)
    (r : RunResult D) (h : runLoop env fuel pipe w = some r) :
    runLoop env (fuel + 1) pipe w = some r := by
  induction fuel generalizing pipe w with
  | zero => simp [runLoop] at h
  | succ n ih =>
    rw [runLoop] at h
    rw [runLoop]
    split
    · simp_all
    · simp_all
    · simp_all
    · rename_i cmd args p1 hread
      simp only [hread] at h
      simp only
      split
      · rename_i p2 hsend
        simp only [hsend] at h
        exact h
      · rename_i p2 hsend
        simp only [hsend] at h
        exact ih _ _ h

theorem runLoop_fuel_le {D : Type} (env : Env D) (n m : Nat) (pipe : Pipe) (w : World D)
    (r : RunResult D) (h : runLoop env n pipe w = some r) (hnm : n ≤ m) :
    runLoop env m pipe w = some r := by
  induction hnm with
  | refl => exact h
  | step _ ih => exact runLoop_fuel_succ env _ pipe w r ih

theorem runLoop_eq_run {D : Type} (env : Env D) (fuel : Nat) (pipe : Pipe) (w : World D)
    (h : pipe.inbound.length < fuel) : runLoop env fuel pipe w = run env pipe w := by
  obtain ⟨r, hr⟩ := runLoop_terminates env (pipe.inbound.length + 1) pipe w (Nat.lt_succ_self _)
  rw [run, hr]
  exact runLoop_fuel_le env _ _ pipe w r hr h

/-- Totality of `run`: the loop always ends. -/
theorem run_terminates {D : Type} (env : Env D) (pipe : Pipe) (w : World D) :
    ∃ r, run env pipe w = some r :=
  runLoop_terminates env _ pipe w (Nat.lt_succ_self _)

/-- One round of the loop of `run` that reads a request: the request is
dispatched and its response sent; when the write fails the loop ends there,
otherwise it goes on with the rest of the input. -/
theorem run_round {D : Type} (env : Env D) (pipe p1 : Pipe) (w : World D)
    (cmd : QString) (args : QStringList)
    (hread : readRequest pipe = ReadResult.ok (cmd :: args) p1) :
    run env pipe w =
      match sendResponse (dispatch env cmd args w).1 p1 with
      | (false, p2) => some (RunResult.closed p2 (dispatch env cmd args w).2)
      | (true, p2) => run env p2 (dispatch env cmd args w).2 := by
  have hr := readRequest_ok pipe p1 _ hread
  rw [run, runLoop]
  simp only [hread]
  split
  · rfl
  · rename_i p2 hsend
    have hs : p2.inbound = p1.inbound := by
      have := (sendResponse_pipe (dispatch env cmd args w).1 p1).1
      rw [hsend] at this
      exact this
    apply runLoop_eq_run
    rw [hs]
    omega

theorem run_read_fails {D : Type} (env : Env D) (pipe p1 : Pipe) (w : World D)
    (hread : readRequest pipe = ReadResult.failed p1) :
    run env pipe w = some (RunResult.closed p1 w) := by
  rw [run, runLoop]
  simp only [hread]

theorem run_out_of_bounds {D : Type} (env : Env D) (pipe : Pipe) (w : World D)
    (hread : readRequest pipe = ReadResult.outOfBounds) :
    run env pipe w = some RunResult.outOfBounds := by
  rw [run, runLoop]
  simp only [hread]

theorem runLoop_outbound {D : Type} (env : Env D) (fuel : Nat) (pipe p : Pipe)
    (w w1 : World D) (h : runLoop env fuel pipe w = some (RunResult.closed p w1)) :
    pipe.outbound <+: p.outbound := by
  induction fuel generalizing pipe w with
  | zero => simp [runLoop] at h
  | succ n ih =>
    rw [runLoop] at h
    split at h
    · cases h
    · rename_i p1 hread
      simp only [Option.some.injEq, RunResult.closed.injEq] at h
      rw [← h.1, readRequest_failed pipe p1 hread]
    · rename_i p1 hread
      simp only [Option.some.injEq, RunResult.closed.injEq] at h
      rw [← h.1, (readRequest_ok pipe p1 _ hread).2.1]
    · rename_i cmd args p1 hread
      have hr := readRequest_ok pipe p1 _ hread
      have hs := (sendResponse_pipe (dispatch env cmd args w).1 p1).2
      simp only at h
      split at h
      · rename_i p2 hsend
        simp only [Option.some.injEq, RunResult.closed.injEq] at h
        rw [hsend] at hs
        rw [← h.1, ← hr.2.1]
        exact hs
      · rename_i p2 hsend
        rw [hsend] at hs
        rw [← hr.2.1]
        exact List.IsPrefix.trans hs (ih _ _ h)

theorem splitLoop_all_sep (sep : Char) (cs : QString) (h : ∀ c ∈ cs, c = sep) :
    splitLoop sep cs [] = [] := by
  induction cs with
  | nil => rfl
  | cons c cs ih =>
    have hc : c = sep := h c (List.mem_cons_self _ _)
    rw [splitLoop]
    simp only [hc, if_true, List.isEmpty_nil]
    exact ih (fun x hx => h x (List.mem_cons_of_mem _ hx))

/-- A frame of length 0, or whose text is empty or tabs only, of a length for
which the buffer of `readRequest` can be allocated: `readRequest` returns
false, the loop of `run` ends there with the world as it was, and nothing is
written to the pipe. -/
theorem readRequest_protocol_error {D : Type} (env : Env D) (pipe : Pipe) (w : World D)
    (data rest : List Nat)
    (hlen : data.length < 2 ^ 32 - 1)
    (hin : pipe.inbound = u32Bytes data.length ++ data ++ rest)
    (hbad : data = [] ∨ ∀ c ∈ fromUtf8 (cString (data ++ [0])), c = '\t') :
    readRequest pipe = ReadResult.failed { pipe with inbound := rest } ∧
      run env pipe w = some (RunResult.closed { pipe with inbound := rest } w) := by
  have hfail : readRequest pipe = ReadResult.failed { pipe with inbound := rest } := by
    by_cases hd : data = []
    · subst hd
      have h1 : extPipeReadN pipe 4 = (some [0, 0, 0, 0], { pipe with inbound := rest }) :=
        extPipeReadN_append pipe _ _ 4 (by rw [hin]; rfl) rfl
      simp [readRequest, h1, u32OfBytes, toU32]
    · have ht : ∀ c ∈ fromUtf8 (cString (data ++ [0])), c = '\t' := by
        rcases hbad with h | h
        · exact absurd h hd
        · exact h
      rw [readRequest_framed pipe data rest hin hd hlen, split, splitLoop_all_sep _ _ ht]
      rfl
  exact ⟨hfail, run_read_fails env pipe _ w hfail⟩

/-- C8: when the decoded request is `list-repos` with an argument count other
than 1 or with an argument that `toULongLong` rejects, or `get-share-link`
with an argument count other than 1, the dispatch yields the empty response
and leaves the world as it is (no call through `rpc_`, no clock reading, no
cache change, no signal); the client still accepting four bytes, the loop
writes the zero-length frame, the length prefix alone, and goes on: it ends,
the bytes written up to its end start with those written before followed by
that frame, and its outcome is that of the next round on the input that
follows the request, with the world as it was: when reading the next request
fails the loop ends there with nothing more written, and when it succeeds
that request is dispatched and its response sent. -/
theorem argument_errors_recovered {D : Type} (env : Env D) (pipe p1 : Pipe) (w : World D)
    (cmd : QString) (args : QStringList)
    (hread : readRequest pipe = ReadResult.ok (cmd :: args) p1)
    (hbad : (cmd = "list-repos".toList ∧
        (args.length ≠ 1 ∨ ∃ a, args = [a] ∧ env.toULongLong a = none)) ∨
      (cmd = "get-share-link".toList ∧ args.length ≠ 1))
    (hcap : 4 ≤ pipe.wcap) :
    dispatch env cmd args w = ([], w) ∧
      sendResponse [] p1 = (true, afterEmptyResponse pipe p1) ∧
      run env pipe w = run env (afterEmptyResponse pipe p1) w ∧
      (∃ r, run env pipe w = some r) ∧
      (∀ p w1, run env pipe w = some (RunResult.closed p w1) →
        pipe.outbound ++ [0, 0, 0, 0] <+: p.outbound) ∧
      (∀ p3, readRequest (afterEmptyResponse pipe p1) = ReadResult.failed p3 →
        run env pipe w = some (RunResult.closed p3 w) ∧
          p3.outbound = pipe.outbound ++ [0, 0, 0, 0]) ∧
      (∀ cmd2 args2 p3,
        readRequest (afterEmptyResponse pipe p1) = ReadResult.ok (cmd2 :: args2) p3 →
        run env pipe w =
          match sendResponse (dispatch env cmd2 args2 w).1 p3 with
          | (false, p4) => some (RunResult.closed p4 (dispatch env cmd2 args2 w).2)
          | (true, p4) => run env p4 (dispatch env cmd2 args2 w).2) := by
  have hd : dispatch env cmd args w = ([], w) := by
    rcases hbad with ⟨rfl, hargs⟩ | ⟨rfl, hargs⟩
    · rcases hargs with hargs | ⟨a, rfl, ha⟩
      · simp [dispatch, handleListRepos, hargs]
      · simp [dispatch, handleListRepos, ha]
    · have hne : "get-share-link".toList ≠ "list-repos".toList := by decide
      simp [dispatch, handleGenShareLink, hargs, hne]
  have hp1 := readRequest_ok pipe p1 _ hread
  have hs : sendResponse [] p1 = (true, afterEmptyResponse pipe p1) := by
    rw [sendResponse_ok [] p1 (by decide) (by rw [hp1.2.2.1]; exact hcap)]
    simp [afterEmptyResponse, toUtf8, utf8Encode, hp1.2.1, hp1.2.2.1, u32Bytes]
  have hstep : run env pipe w = run env (afterEmptyResponse pipe p1) w := by
    rw [run_round env pipe p1 w cmd args hread, hd]
    simp only [hs]
  refine ⟨hd, hs, hstep, run_terminates env pipe w, ?_, ?_, ?_⟩
  · intro p w1 hrun
    rw [hstep] at hrun
    exact runLoop_outbound env _ _ p w w1 hrun
  · intro p3 hfail
    refine ⟨?_, ?_⟩
    · rw [hstep]; exact run_read_fails env _ p3 w hfail
    · exact readRequest_failed _ p3 hfail
  · intro cmd2 args2 p3 hok
    rw [hstep]
    exact run_round env _ p3 w cmd2 args2 hok

/-- Witness of C8. First input: `list-repos` with a non-numeric argument,
then `get-share-link` with two arguments, then the end of the input; the loop
writes two zero-length frames and ends with the world untouched. Second
input: `list-repos` without argument, then `list-repos` with timestamp 0; the
loop writes the zero-length frame, then the frame of the record of the one
repo, and ends. -/
theorem argument_errors_recovered_witness :
    run (stdEnv [repoA] exClock)
        ⟨frameOf "list-repos\tabc".toList ++ frameOf "get-share-link\t/a\t/b".toList, [], 100⟩
        (initWorld 0)
      = some (RunResult.closed ⟨[], [0, 0, 0, 0, 0, 0, 0, 0], 92⟩ (initWorld 0)) ∧
    run (stdEnv [repoA] exClock)
        ⟨frameOf "list-repos".toList ++ frameOf "list-repos\t0".toList, [], 100⟩
        (initWorld 0)
      = some (RunResult.closed
          ⟨[], [0, 0, 0, 0] ++ frameOf "idA\tRepoA\t/home/u/RepoA\tnormal".toList, 62⟩
          ⟨1500, [repoA], 2, 2, [RpcCall.listLocalRepos, RpcCall.getSyncStatus repoA], []⟩) :=
  ⟨((argument_errors_recovered (stdEnv [repoA] exClock)
        ⟨frameOf "list-repos\tabc".toList ++ frameOf "get-share-link\t/a\t/b".toList, [], 100⟩
        ⟨frameOf "get-share-link\t/a\t/b".toList, [], 100⟩
        (initWorld 0) "list-repos".toList ["abc".toList] (by decide)
        (Or.inl ⟨rfl, Or.inr ⟨"abc".toList, rfl, by decide⟩⟩) (by decide)).2.2.1).trans
      ((argument_errors_recovered (stdEnv [repoA] exClock)
        ⟨frameOf "get-share-link\t/a\t/b".toList, [0, 0, 0, 0], 96⟩
        ⟨[], [0, 0, 0, 0], 96⟩
        (initWorld 0) "get-share-link".toList ["/a".toList, "/b".toList] (by decide)
        (Or.inr ⟨rfl, by decide⟩) (by decide)).2.2.2.2.2.1
          ⟨[], [0, 0, 0, 0, 0, 0, 0, 0], 92⟩ (by decide)).1,
   (argument_errors_recovered (stdEnv [repoA] exClock)
        ⟨frameOf "list-repos".toList ++ frameOf "list-repos\t0".toList, [], 100⟩
        ⟨frameOf "list-repos\t0".toList, [], 100⟩
        (initWorld 0) "list-repos".toList [] (by decide)
        (Or.inl ⟨rfl, Or.inl (by decide)⟩) (by decide)).2.2.2.2.2.2
          "list-repos".toList ["0".toList] ⟨[], [0, 0, 0, 0], 96⟩ (by decide)⟩

/-- C9 (the failing input): a request frame whose length prefix is
`FF FF FF FF`, whatever follows it, tabs included. `readRequest` computes the
size of its buffer, `len + 1`, in `uint32_t`, which gives 0, and then stores
the terminating NUL at index `2^32 - 1`, outside the buffer: the call does not
return false and the loop of `run` does not end by its `break`. For every
shorter frame that is empty or tabs only, `readRequest_protocol_error` shows
the behaviour the claim states. -/
theorem readRequest_length_overflow {D : Type} (env : Env D) (rest out : List Nat)
    (cap : Nat) (w : World D) :
    u32OfBytes [255, 255, 255, 255] = 2 ^ 32 - 1 ∧
      toU32 (u32OfBytes [255, 255, 255, 255] + 1) = 0 ∧
      readRequest ⟨255 :: 255 :: 255 :: 255 :: rest, out, cap⟩ = ReadResult.outOfBounds ∧
      run env ⟨255 :: 255 :: 255 :: 255 :: rest, out, cap⟩ w = some RunResult.outOfBounds := by
  have hread : readRequest ⟨255 :: 255 :: 255 :: 255 :: rest, out, cap⟩
      = ReadResult.outOfBounds := by
    have h1 : extPipeReadN ⟨255 :: 255 :: 255 :: 255 :: rest, out, cap⟩ 4 =
        (some [255, 255, 255, 255], ⟨rest, out, cap⟩) :=
      extPipeReadN_append _ [255, 255, 255, 255] rest 4 rfl rfl
    simp only [readRequest, h1]
    rw [if_neg (by decide), if_pos (by decide)]
  exact ⟨by decide, by decide, hread, run_out_of_bounds env _ w hread⟩

end ExtHandler
